import Mathlib

/-!
Verification development for the `claude-config-manager` repository
(`src/claude-config-manager.js`, compact variant; `src/unnamed/part_000`,
beta variant).  The configuration file is a JSON object holding the two
server buckets `mcpServers` / `disabledMcpServers` plus arbitrary other
top-level fields.  We embed the JSON value model, the pure configuration
operations, the text-level JSON repair passes and the backup-name ordering,
and prove or refute the frozen claims about them.
-/

set_option maxRecDepth 4096

/-- JSON values.  JS objects are modelled as insertion-ordered association
lists; numbers are modelled as integers (no claim depends on fractional
values, only on zero/non-zero for JS truthiness). -/
inductive JVal where
  | null : JVal
  | bool (b : Bool) : JVal
  | num (n : Int) : JVal
  | str (s : String) : JVal
  | arr (elems : List JVal) : JVal
  | obj (fields : List (String × JVal)) : JVal
deriving Repr

/-- Property lookup on a JS object (first binding wins; real JS objects
never carry duplicate keys). -/
def jget : List (String × JVal) → String → Option JVal
  | [], _ => none
  | (k, v) :: rest, key => if k = key then some v else jget rest key

/-- `key in obj` / `Object.keys` membership. -/
def jhas (o : List (String × JVal)) (key : String) : Bool :=
  (jget o key).isSome

/-- JS property assignment `o[key] = v`: updates an existing key in place
(keeping its position) or appends a fresh key at the end. -/
def jset : List (String × JVal) → String → JVal → List (String × JVal)
  | [], key, v => [(key, v)]
  | (k, w) :: rest, key, v =>
      if k = key then (k, v) :: rest else (k, w) :: jset rest key v

/-- JS `delete o[key]`. -/
def jdel (o : List (String × JVal)) (key : String) : List (String × JVal) :=
  o.filter (fun p => p.1 ≠ key)

/-- JS truthiness of a JSON value (`null`, `false`, `0` and `""` are falsy;
every array and object, including empty ones, is truthy). -/
def jvTruthy : JVal → Bool
  | .null => false
  | .bool b => b
  | .num n => n != 0
  | .str s => s != ""
  | .arr _ => true
  | .obj _ => true

/-- JS `typeof v === 'object'` (true for objects, arrays and `null`). -/
def jvTypeofObject : JVal → Bool
  | .null => true
  | .arr _ => true
  | .obj _ => true
  | _ => false

/-- Truthiness of an optional value; an absent property (`undefined`)
is falsy. -/
def truthyOpt : Option JVal → Bool
  | some v => jvTruthy v
  | none => false

/-- Truthiness of `config[key]` (absent key reads as `undefined`). -/
def jtruthyAt (cfg : List (String × JVal)) (key : String) : Bool :=
  truthyOpt (jget cfg key)

/-- Property access `v[key]` on an arbitrary JSON value: only objects
yield members (string indexing by numeric-character keys is not modelled;
the well-formedness predicate below keeps us inside this domain). -/
def jvIndex : JVal → String → Option JVal
  | .obj l, key => jget l key
  | _, _ => none

/-- JS spread merge `{ ...a, ...b }`: keys of `a` in order (taking `b`'s
value when `b` also has the key), then keys only in `b`, in `b`'s order. -/
def jmerge (a b : List (String × JVal)) : List (String × JVal) :=
  (a.map (fun p =>
      match jget b p.1 with
      | some v => (p.1, v)
      | none => p))
    ++ b.filter (fun q => !(jhas a q.1))

/-- JS `Object.assign(t, s)`: assign each property of `s` onto `t` in
order. -/
def jassign (t s : List (String × JVal)) : List (String × JVal) :=
  s.foldl (fun acc p => jset acc p.1 p.2) t

/-- The bucket read `config[key] || \x7b\x7d` as used throughout the source:
an object value is taken as is, anything else (absent, `null`, other
falsy/non-object values) is treated as the empty map. -/
def bucketOf (cfg : List (String × JVal)) (key : String) : List (String × JVal) :=
  match jget cfg key with
  | some (.obj l) => l
  | _ => []

/-- No duplicate keys in an association list (true of every real JS
object). -/
def nodupKeysB : List (String × JVal) → Bool
  | [] => true
  | (k, _) :: rest => !(jhas rest k) && nodupKeysB rest

/-- One bucket key of a configuration is well formed when it is absent or
holds a duplicate-free object.  This is the domain on which the JS code and
the embedding agree (a truthy non-object bucket would make the JS code
index into strings or silently drop writes). -/
def bucketKeyWF (cfg : List (String × JVal)) (key : String) : Bool :=
  match jget cfg key with
  | none => true
  | some (.obj l) => nodupKeysB l
  | some _ => false

/-- Both server buckets of a configuration are well formed. -/
def bucketsWF (cfg : List (String × JVal)) : Bool :=
  bucketKeyWF cfg "mcpServers" && bucketKeyWF cfg "disabledMcpServers"

/-! ## Config operations -/

/-- `handleToggleMcp` (compact, src/claude-config-manager.js:94-107) /
`toggleMcp` (beta, src/unnamed/part_000:212-233).  The selected entry's
`enabled` flag comes from the displayed list, i.e. from membership in
`config.mcpServers || \x7b\x7d`.  The code first ensures
`config.disabledMcpServers` exists (`if (!config.disabledMcpServers)
config.disabledMcpServers = \x7b\x7d`), then moves the entry.  Enabling an
entry assigns `config.mcpServers[name]`, which throws a TypeError when the
`mcpServers` key is absent — modelled as `none`. -/
def toggleConfig (cfg : List (String × JVal)) (n : String) :
    Option (List (String × JVal)) :=
  let e := bucketOf cfg "mcpServers"
  let d := bucketOf cfg "disabledMcpServers"
  let cfg1 :=
    if jtruthyAt cfg "disabledMcpServers" then cfg
    else jset cfg "disabledMcpServers" (.obj [])
  if jhas e n then
    -- disable: disabledMcpServers[n] = mcpServers[n]; delete mcpServers[n]
    let d1 := jset (bucketOf cfg1 "disabledMcpServers") n
      ((jget e n).getD .null)
    let cfg2 := jset cfg1 "disabledMcpServers" (.obj d1)
    let cfg3 := jset cfg2 "mcpServers"
      (.obj (jdel (bucketOf cfg2 "mcpServers") n))
    some cfg3
  else if jhas d n then
    -- enable: mcpServers[n] = disabledMcpServers[n]; delete disabledMcpServers[n]
    match jget cfg1 "mcpServers" with
    | some (.obj eo) =>
        let cfg2 := jset cfg1 "mcpServers"
          (.obj (jset eo n ((jget (bucketOf cfg1 "disabledMcpServers") n).getD .null)))
        let cfg3 := jset cfg2 "disabledMcpServers"
          (.obj (jdel (bucketOf cfg2 "disabledMcpServers") n))
        some cfg3
    | _ => none  -- TypeError: cannot set property of undefined
  else
    some cfg    -- invalid selection: the menu re-prompts, nothing mutates

/-- Enable-all (compact, src/claude-config-manager.js:597-606):
`if (config.disabledMcpServers) \x7b Object.assign(config.mcpServers,
config.disabledMcpServers); config.disabledMcpServers = \x7b\x7d; ... \x7d`.
`Object.assign` with an `undefined` target throws a TypeError — modelled
as `none`.  A falsy `disabledMcpServers` skips the whole block. -/
def enableAllConfig (cfg : List (String × JVal)) :
    Option (List (String × JVal)) :=
  if jtruthyAt cfg "disabledMcpServers" then
    match jget cfg "mcpServers" with
    | some (.obj eo) =>
        let d := bucketOf cfg "disabledMcpServers"
        let cfg1 := jset cfg "mcpServers" (.obj (jassign eo d))
        some (jset cfg1 "disabledMcpServers" (.obj []))
    | _ => none
  else some cfg

/-- Enable-all (beta, `handleExportAllEnabled`, src/unnamed/part_000:450-464):
iterates `Object.entries(config.disabledMcpServers)` assigning
`config.mcpServers[key] = value`; with `mcpServers` absent this throws on
the first entry, but succeeds vacuously when the disabled bucket is empty. -/
def handleExportAllEnabledConfig (cfg : List (String × JVal)) :
    Option (List (String × JVal)) :=
  if jtruthyAt cfg "disabledMcpServers" then
    let d := bucketOf cfg "disabledMcpServers"
    match jget cfg "mcpServers", d with
    | some (.obj eo), _ =>
        some (jset (jset cfg "mcpServers" (.obj (jassign eo d)))
          "disabledMcpServers" (.obj []))
    | none, [] =>
        some (jset cfg "disabledMcpServers" (.obj []))
    | _, _ => none  -- TypeError: cannot set property of undefined
  else some cfg

/-- The selection loop of `handleCustomConfig`
(src/claude-config-manager.js:291-307) / `handleExportMinimal`
(src/unnamed/part_000:551-586): starting from the merged map of all
entries, each selected name whose value is truthy is moved into the new
enabled bucket; everything remaining becomes the disabled bucket. -/
def selectFold (selected : List String)
    (acc : List (String × JVal) × List (String × JVal)) :
    List (String × JVal) × List (String × JVal) :=
  selected.foldl (fun acc mcp =>
    let (en, rem) := acc
    match jget rem mcp with
    | some v => if jvTruthy v then (jset en mcp v, jdel rem mcp) else (en, rem)
    | none => (en, rem)) acc

/-- `handleCustomConfig` / `handleExportMinimal` as a whole-configuration
transformation: build `allMcpsObj = \x7b ...config.mcpServers,
...config.disabledMcpServers \x7d`, reset both buckets, move the truthy
selected entries to enabled, and store the remainder as disabled. -/
def selectExactlyConfig (cfg : List (String × JVal)) (selected : List String) :
    List (String × JVal) :=
  let allObj := jmerge (bucketOf cfg "mcpServers") (bucketOf cfg "disabledMcpServers")
  let r := selectFold selected ([], allObj)
  jset (jset cfg "mcpServers" (.obj r.1)) "disabledMcpServers" (.obj r.2)

/-- `fixConfigStructure` (src/unnamed/part_000:949-975): replace
`mcpServers` by an empty object when it is absent, falsy or not of
`typeof 'object'`; replace `disabledMcpServers` only when it is present,
truthy and not of `typeof 'object'`. -/
def fixConfigStructure (cfg : List (String × JVal)) : List (String × JVal) :=
  let cfg1 :=
    match jget cfg "mcpServers" with
    | some v =>
        if !(jvTruthy v) || !(jvTypeofObject v) then
          jset cfg "mcpServers" (.obj [])
        else cfg
    | none => jset cfg "mcpServers" (.obj [])
  match jget cfg1 "disabledMcpServers" with
  | some v =>
      if jvTruthy v && !(jvTypeofObject v) then
        jset cfg1 "disabledMcpServers" (.obj [])
      else cfg1
  | none => cfg1

/-- The placement test of `smartLoadPreset`
(src/claude-config-manager.js:202): `presetConfig.mcpServers &&
presetConfig.mcpServers[mcp]` — truthiness of the raw bucket value and of
the member looked up in it. -/
def smartPlaceEnabled (preset : List (String × JVal)) (mcp : String) : Bool :=
  match jget preset "mcpServers" with
  | some pe => jvTruthy pe && truthyOpt (jvIndex pe mcp)
  | none => false

/-- The per-entry loop of `smartLoadPreset`
(src/claude-config-manager.js:199-212) over the entries of the merged
current map: entries whose merged preset value is truthy follow the
preset's placement, all others are forced into the disabled bucket and
recorded in `newMcps`. -/
def smartMergeStep (preset presetMcps : List (String × JVal))
    (acc : List (String × JVal) × List (String × JVal) × List String)
    (p : String × JVal) :
    List (String × JVal) × List (String × JVal) × List String :=
  let (ne, nd, news) := acc
  match jget presetMcps p.1 with
  | some pv =>
      if jvTruthy pv then
        if smartPlaceEnabled preset p.1 then (jset ne p.1 p.2, nd, news)
        else (ne, jset nd p.1 p.2, news)
      else (ne, jset nd p.1 p.2, news ++ [p.1])
  | none => (ne, jset nd p.1 p.2, news ++ [p.1])

/-- The loop of `smartLoadPreset` starting from an arbitrary accumulator
(the source starts from two empty buckets and an empty report). -/
def smartMergeFoldFrom (preset presetMcps : List (String × JVal))
    (acc : List (String × JVal) × List (String × JVal) × List String)
    (entries : List (String × JVal)) :
    List (String × JVal) × List (String × JVal) × List String :=
  entries.foldl (smartMergeStep preset presetMcps) acc

def smartMergeFold (preset presetMcps : List (String × JVal))
    (entries : List (String × JVal)) :
    List (String × JVal) × List (String × JVal) × List String :=
  smartMergeFoldFrom preset presetMcps ([], [], []) entries

/-- `smartLoadPreset` (src/claude-config-manager.js:173-227): merge the
current and preset buckets, reposition every current entry, and build a
fresh configuration holding exactly the two bucket keys (any other
top-level field of the current configuration is not copied over).  The
second component is the `newMcps` report. -/
def smartLoadConfig (cur preset : List (String × JVal)) :
    List (String × JVal) × List String :=
  let currentMcps := jmerge (bucketOf cur "mcpServers") (bucketOf cur "disabledMcpServers")
  let presetMcps := jmerge (bucketOf preset "mcpServers") (bucketOf preset "disabledMcpServers")
  let r := smartMergeFold preset presetMcps currentMcps
  ([("mcpServers", JVal.obj r.1), ("disabledMcpServers", JVal.obj r.2.1)], r.2.2)

/-! ## JSON repair engine (text transforms)

The beta repair engine `attemptJsonFix` (src/unnamed/part_000:995-1031)
applies four text transforms and then re-parses once.  Each regex
substitution is embedded as a left-to-right scan over the character list
with the same match/replace semantics; the scanners are structurally
recursive on a fuel argument initialised to the input length, which is an
upper bound on the number of scan steps since every step consumes at least
one character. -/

/-- Left brace character (written via its code so that braces never occur
in literals). -/
def lbrace : Char := Char.ofNat 123

/-- Right brace character. -/
def rbrace : Char := Char.ofNat 125

/-- Single-quote character. -/
def squote : Char := Char.ofNat 39

/-- Double-quote character. -/
def dquote : Char := Char.ofNat 34

/-- The characters matched by the regex class `\s` (ASCII portion). -/
def isWsChar (c : Char) : Bool :=
  c = ' ' || c = '\t' || c = '\n' || c = '\r' || c = Char.ofNat 11 || c = Char.ofNat 12

/-- The characters matched by the regex class `\w`. -/
def isWordChar (c : Char) : Bool :=
  c.isAlpha || c.isDigit || c = '_'

/-- Scanner for the global substitution of pass 1 (trailing commas): a
comma followed by optional whitespace and a closing brace/bracket loses
the comma; scanning resumes after the bracket. -/
def removeTrailingCommasAux : Nat → List Char → List Char
  | 0, s => s
  | _, [] => []
  | fuel + 1, c :: rest =>
    if c = ',' then
      match rest.dropWhile isWsChar with
      | b :: tail =>
          if b = rbrace || b = ']' then
            rest.takeWhile isWsChar ++ b :: removeTrailingCommasAux fuel tail
          else c :: removeTrailingCommasAux fuel rest
      | [] => c :: removeTrailingCommasAux fuel rest
    else c :: removeTrailingCommasAux fuel rest

/-- Pass 1: `content.replace(/,(\s*[...)/g, ...)` removing a comma that
directly precedes (up to whitespace) a closing brace or bracket. -/
def removeTrailingCommas (s : List Char) : List Char :=
  removeTrailingCommasAux s.length s

/-- Scanner for pass 2 (missing commas): a quote or digit, a whitespace
run containing a newline, and then a quote / opening brace / opening
bracket get a comma inserted; the matched whitespace run collapses to a
single newline, as the regex replacement writes only the two captured
characters around a comma and one newline. -/
def insertMissingCommasAux : Nat → List Char → List Char
  | 0, s => s
  | _, [] => []
  | fuel + 1, c :: rest =>
    if c = dquote || c.isDigit then
      if (rest.takeWhile isWsChar).contains '\n' then
        match rest.dropWhile isWsChar with
        | b :: tail =>
            if b = dquote || b = lbrace || b = '[' then
              c :: ',' :: '\n' :: b :: insertMissingCommasAux fuel tail
            else c :: insertMissingCommasAux fuel rest
        | [] => c :: insertMissingCommasAux fuel rest
      else c :: insertMissingCommasAux fuel rest
    else c :: insertMissingCommasAux fuel rest

/-- Pass 2 as a whole-text transform. -/
def insertMissingCommas (s : List Char) : List Char :=
  insertMissingCommasAux s.length s

/-- Scanner for one global replacement round of pass 3 (bare keys): an
opening brace, optional whitespace, a nonempty word, optional whitespace
and a colon are rewritten as the brace, the quoted word and the colon
(the whitespace is dropped, as in the regex replacement). -/
def quoteBareKeysOnceAux : Nat → List Char → List Char
  | 0, s => s
  | _, [] => []
  | fuel + 1, c :: rest =>
    if c = lbrace then
      let r1 := rest.dropWhile isWsChar
      let word := r1.takeWhile isWordChar
      let r2 := r1.dropWhile isWordChar
      if word.isEmpty then c :: quoteBareKeysOnceAux fuel rest
      else
        match r2.dropWhile isWsChar with
        | ch :: tail =>
            if ch = ':' then
              lbrace :: dquote :: (word ++ dquote :: ':' :: quoteBareKeysOnceAux fuel tail)
            else c :: quoteBareKeysOnceAux fuel rest
        | [] => c :: quoteBareKeysOnceAux fuel rest
    else c :: quoteBareKeysOnceAux fuel rest

/-- One global replacement round of pass 3. -/
def quoteBareKeysOnce (s : List Char) : List Char :=
  quoteBareKeysOnceAux s.length s

/-- `unquotedPropRegex.test(content)`: does the bare-key pattern match
anywhere?  (`String.replace` with a global regex resets `lastIndex`, so
each `test` in the source's while-loop again scans from the start.) -/
def hasBareKeyMatch : List Char → Bool
  | [] => false
  | c :: rest =>
    (c = lbrace &&
      (let r1 := rest.dropWhile isWsChar
       let word := r1.takeWhile isWordChar
       let r2 := r1.dropWhile isWordChar
       !word.isEmpty &&
         (match r2.dropWhile isWsChar with
          | ch :: _ => ch = ':'
          | [] => false)))
    || hasBareKeyMatch rest

/-- Pass 3's while-loop: replace while the pattern still matches.  The
loop in the source stabilises after one replacement round (a quoted key
can no longer match and replacements introduce only quote characters), so
any fuel of at least two reproduces it; the caller passes `length + 1`. -/
def quoteBareKeysLoop : Nat → List Char → List Char
  | 0, s => s
  | fuel + 1, s =>
      if hasBareKeyMatch s then quoteBareKeysLoop fuel (quoteBareKeysOnce s) else s

/-- Pass 4: when the text contains a single quote and no double quote at
all, globally replace single quotes by double quotes; otherwise leave the
text alone. -/
def singleToDoubleQuotes (s : List Char) : List Char :=
  if s.contains squote && !(s.contains dquote) then
    s.map (fun c => if c = squote then dquote else c)
  else s

/-- The full text transformation of `attemptJsonFix`
(src/unnamed/part_000:998-1020): the four passes in the source's order. -/
def attemptJsonFixText (raw : List Char) : List Char :=
  let fixed1 := removeTrailingCommas raw
  let fixed2 := insertMissingCommas fixed1
  let fixed3 := quoteBareKeysLoop (fixed2.length + 1) fixed2
  singleToDoubleQuotes fixed3

/-- The text transformation of the compact variant's repair branch
(`checkConfig`, src/claude-config-manager.js:499-501): only the
trailing-comma and missing-comma substitutions. -/
def checkConfigFixedText (content : List Char) : List Char :=
  insertMissingCommas (removeTrailingCommas content)

/-- Outcome of `attemptJsonFix`: exactly one `JSON.parse` attempt on the
fully transformed text (src/unnamed/part_000:1024); the strict parser is
a parameter of the model. -/
def attemptJsonFixResult (parse : List Char → Option JVal) (raw : List Char) :
    Option JVal :=
  parse (attemptJsonFixText raw)

/-- Outcome of the compact repair branch: one `JSON.parse` attempt on its
two-pass transformed text (src/claude-config-manager.js:504). -/
def checkConfigFixResult (parse : List Char → Option JVal) (content : List Char) :
    Option JVal :=
  parse (checkConfigFixedText content)

/-! ## Backup store: identifier format and listing order -/

/-- A clock reading, as decomposed in an ISO-8601 UTC timestamp. -/
structure TS where
  year : Nat
  month : Nat
  day : Nat
  hour : Nat
  minute : Nat
  second : Nat
  ms : Nat
deriving Repr, DecidableEq

/-- Chronological (lexicographic field-wise) strict order on clock
readings. -/
def tsLtB (a b : TS) : Bool :=
  if a.year ≠ b.year then decide (a.year < b.year)
  else if a.month ≠ b.month then decide (a.month < b.month)
  else if a.day ≠ b.day then decide (a.day < b.day)
  else if a.hour ≠ b.hour then decide (a.hour < b.hour)
  else if a.minute ≠ b.minute then decide (a.minute < b.minute)
  else if a.second ≠ b.second then decide (a.second < b.second)
  else decide (a.ms < b.ms)

/-- Field ranges of a `toISOString` output (fixed-width rendering). -/
def tsWF (t : TS) : Bool :=
  decide (t.year < 10000) && decide (t.month < 100) && decide (t.day < 100) &&
    decide (t.hour < 100) && decide (t.minute < 100) && decide (t.second < 100) &&
    decide (t.ms < 1000)

/-- The decimal digit character of `n % 10`. -/
def digitChar (n : Nat) : Char :=
  match n % 10 with
  | 0 => '0' | 1 => '1' | 2 => '2' | 3 => '3' | 4 => '4'
  | 5 => '5' | 6 => '6' | 7 => '7' | 8 => '8' | _ => '9'

/-- Two-digit zero-padded rendering (exact for values below 100). -/
def pad2 (v : Nat) : List Char := [digitChar (v / 10), digitChar v]

/-- Three-digit zero-padded rendering (exact for values below 1000). -/
def pad3 (v : Nat) : List Char := [digitChar (v / 100), digitChar (v / 10), digitChar v]

/-- Four-digit zero-padded rendering (exact for values below 10000). -/
def pad4 (v : Nat) : List Char :=
  [digitChar (v / 1000), digitChar (v / 100), digitChar (v / 10), digitChar v]

/-- `new Date(...).toISOString()`: `YYYY-MM-DDTHH:MM:SS.mmmZ`. -/
def isoChars (t : TS) : List Char :=
  pad4 t.year ++ '-' :: pad2 t.month ++ '-' :: pad2 t.day ++ 'T' :: pad2 t.hour
    ++ ':' :: pad2 t.minute ++ ':' :: pad2 t.second ++ '.' :: pad3 t.ms ++ ['Z']

/-- The character substitution of `.replace(/[:.]/g, '-')`. -/
def sanitizeChar (c : Char) : Char :=
  if c = ':' || c = '.' then '-' else c

/-- The timestamped backup file name built by `createManualBackup`
(src/unnamed/part_000:634-652): prefix, sanitised ISO timestamp, `.json`
suffix. -/
def backupFileName (t : TS) : List Char :=
  String.toList "config-backup-" ++ (isoChars t).map sanitizeChar
    ++ String.toList ".json"

/-- Code-unit comparison of two characters (JS string comparison compares
UTF-16 code units; all characters appearing in backup names are ASCII, so
code-point order coincides). -/
def charLtB (a b : Char) : Bool := decide (a < b)

/-- Lexicographic non-strict order on character lists, comparing code
units, as JS `Array.prototype.sort()` does for strings. -/
def lexLeB : List Char → List Char → Bool
  | [], _ => true
  | _ :: _, [] => false
  | a :: as, b :: bs =>
      if charLtB a b then true else if charLtB b a then false else lexLeB as bs

/-- Lexicographic strict order on character lists. -/
def lexLtB : List Char → List Char → Bool
  | [], [] => false
  | [], _ :: _ => true
  | _ :: _, [] => false
  | a :: as, b :: bs =>
      if charLtB a b then true else if charLtB b a then false else lexLtB as bs

/-- The propositional form of `lexLeB`, used as the sorting relation. -/
def lexLe (a b : List Char) : Prop := lexLeB a b = true

instance : DecidableRel lexLe := fun a b => by
  unfold lexLe; infer_instance

/-- `file.startsWith(p)` on character lists. -/
def startsWithB : List Char → List Char → Bool
  | [], _ => true
  | _ :: _, [] => false
  | a :: as, b :: bs => a = b && startsWithB as bs

/-- `file.endsWith(s)` on character lists. -/
def endsWithB (suffixChars s : List Char) : Bool :=
  startsWithB suffixChars.reverse s.reverse

/-- The filter of `getAvailableBackups` (src/unnamed/part_000:702):
`file.startsWith('config-backup-') && file.endsWith('.json')`. -/
def isBackupFileId (f : List Char) : Bool :=
  startsWithB (String.toList "config-backup-") f && endsWithB (String.toList ".json") f

/-- `getAvailableBackups` (src/unnamed/part_000:692-710) / `getBackups`
(src/claude-config-manager.js:394-403): filter the directory listing to
timestamped backup names, sort ascending, reverse (newest first). -/
def getAvailableBackups (files : List (List Char)) : List (List Char) :=
  ((files.filter isBackupFileId).insertionSort lexLe).reverse

/-! ## Write-back paths as IO traces

The claims about backup-before-overwrite ordering concern the sequence of
completed file writes on each write-back path; each path is modelled as
the list of write events it completes, as a function of which fallible
steps succeed.  A step that throws ends the path's trace at that point
when the source has no handler around it, and only skips the step when the
source catches the error and continues. -/

/-- Completed file-write events of the tool. -/
inductive IoEvent where
  | writeLatestBackup : IoEvent
  | writeTimestampBackup : IoEvent
  | writePreRestoreBackup : IoEvent
  | writeLive : IoEvent
deriving Repr, DecidableEq

/-- `writeConfig` (src/claude-config-manager.js:41-54 and
src/unnamed/part_000:152-172): inside one `try`, copy the live file into
the fixed `config-latest-backup.json` slot, then overwrite the live file;
a failure of the backup step jumps to the catch, so the live write is
never reached. -/
def writeConfigTrace (backupOk : Bool) : List IoEvent :=
  if backupOk then [IoEvent.writeLatestBackup, IoEvent.writeLive] else []

/-- `attemptJsonFix` (src/unnamed/part_000:995-1031): first
`createManualBackupSilent()`, which catches its own errors and returns
`null` on failure, then — regardless of the backup outcome — the live file
is overwritten whenever the transformed text parses. -/
def attemptJsonFixTrace (backupOk fixParses : Bool) : List IoEvent :=
  (if backupOk then [IoEvent.writeTimestampBackup] else [])
    ++ (if fixParses then [IoEvent.writeLive] else [])

/-- `fixConfigStructure` (src/unnamed/part_000:949-975): a silent
timestamped backup (failure caught and ignored), then the live write. -/
def fixConfigStructureTrace (backupOk : Bool) : List IoEvent :=
  (if backupOk then [IoEvent.writeTimestampBackup] else []) ++ [IoEvent.writeLive]

/-- The compact `checkConfig` fix branches
(src/claude-config-manager.js:479-489 and 496-510): the live file is
rewritten directly, with no backup of any kind. -/
def checkConfigFixTrace : List IoEvent := [IoEvent.writeLive]

/-- The restore paths (src/claude-config-manager.js:379-385,
src/unnamed/part_000:664-679 and 744-758): a copy of the live file goes
into the `pre-restore-backup.json` slot before the live file is
overwritten, inside one `try`. -/
def restoreTrace (preBackupOk : Bool) : List IoEvent :=
  if preBackupOk then [IoEvent.writePreRestoreBackup, IoEvent.writeLive] else []

/-! ## Object-model lemmas -/

theorem jget_jset_self (o : List (String × JVal)) (k : String) (v : JVal) :
    jget (jset o k v) k = some v := by
  induction o with
  | nil => simp [jset, jget]
  | cons p rest ih =>
      by_cases h : p.1 = k
      · simp [jset, jget, h]
      · simp [jset, jget, h, ih]

theorem jget_jset_ne (o : List (String × JVal)) (k k' : String) (v : JVal)
    (h : k' ≠ k) : jget (jset o k v) k' = jget o k' := by
  have h' : ¬ k = k' := Ne.symm h
  induction o with
  | nil => simp [jset, jget, h']
  | cons p rest ih =>
      by_cases hp : p.1 = k
      · subst hp
        simp [jset, jget, h']
      · simp only [jset, if_neg hp]
        by_cases hk : p.1 = k'
        · simp [jget, hk]
        · simp [jget, hk, ih]

theorem jget_jdel_self (o : List (String × JVal)) (k : String) :
    jget (jdel o k) k = none := by
  induction o with
  | nil => rfl
  | cons p rest ih =>
      by_cases h : p.1 = k
      · simpa [jdel, List.filter_cons, h] using ih
      · simpa [jdel, List.filter_cons, h, jget] using ih

theorem jget_jdel_ne (o : List (String × JVal)) (k k' : String) (h : k' ≠ k) :
    jget (jdel o k) k' = jget o k' := by
  induction o with
  | nil => rfl
  | cons p rest ih =>
      by_cases hp : p.1 = k
      · have h' : ¬ k = k' := Ne.symm h
        simp [jdel, List.filter_cons, hp, jget, h'] at ih ⊢
        exact ih
      · by_cases hk : p.1 = k'
        · simp [jdel, List.filter_cons, hp, jget, hk, h]
        · rw [show jdel (p :: rest) k = p :: jdel rest k by simp [jdel, List.filter_cons, hp]]
          simp [jget, hk, ih]

theorem jget_append (l1 l2 : List (String × JVal)) (k : String) :
    jget (l1 ++ l2) k =
      match jget l1 k with
      | some v => some v
      | none => jget l2 k := by
  induction l1 with
  | nil => simp [jget]
  | cons p rest ih =>
      by_cases h : p.1 = k
      · simp [jget, h]
      · simp [jget, h, ih]

theorem jget_mergeMap (a b : List (String × JVal)) (k : String) :
    jget (a.map (fun p =>
        match jget b p.1 with
        | some v => (p.1, v)
        | none => p)) k =
      match jget a k with
      | some v =>
          some (match jget b k with
                | some w => w
                | none => v)
      | none => none := by
  induction a with
  | nil => simp [jget]
  | cons p rest ih =>
      by_cases h : p.1 = k
      · subst h
        cases hb : jget b p.1 <;> simp [jget, hb]
      · cases hb : jget b p.1 <;> simp [jget, h, hb, ih]

theorem jget_filterNotIn (a b : List (String × JVal)) (k : String) :
    jget (b.filter (fun q => !(jhas a q.1))) k =
      if jhas a k then none else jget b k := by
  induction b with
  | nil => simp [jget]
  | cons q rest ih =>
      by_cases hq : jhas a q.1
      · by_cases hk : q.1 = k
        · subst hk
          simp [List.filter, hq, jget, ih]
        · simp [List.filter, hq, jget, hk, ih]
      · by_cases hk : q.1 = k
        · subst hk
          simp [List.filter, hq, jget, ih]
        · simp [List.filter, hq, jget, hk, ih]

/-- Lookup in a spread merge: a key of `a` takes `b`'s value when `b` has
it and `a`'s otherwise; a key not in `a` reads from `b`. -/
theorem jget_jmerge (a b : List (String × JVal)) (k : String) :
    jget (jmerge a b) k =
      match jget a k with
      | some v =>
          some (match jget b k with
                | some w => w
                | none => v)
      | none => jget b k := by
  unfold jmerge
  rw [jget_append, jget_mergeMap, jget_filterNotIn]
  cases ha : jget a k <;> simp [jhas, ha]

theorem bucketOf_jset_obj_self (cfg : List (String × JVal)) (k : String)
    (x : List (String × JVal)) : bucketOf (jset cfg k (.obj x)) k = x := by
  simp [bucketOf, jget_jset_self]

theorem bucketOf_jset_ne (cfg : List (String × JVal)) (k k' : String) (v : JVal)
    (h : k' ≠ k) : bucketOf (jset cfg k v) k' = bucketOf cfg k' := by
  simp [bucketOf, jget_jset_ne _ _ _ _ h]

/-- The selection loop of `handleCustomConfig`: a key ends up in the new
enabled map exactly when it is selected and its entry in the remainder map
is truthy; such keys are removed from the remainder, everything else is
untouched. -/
theorem selectFold_spec (selected : List String) :
    ∀ en rem k,
      (jget (selectFold selected (en, rem)).1 k =
        if k ∈ selected ∧ truthyOpt (jget rem k) = true then jget rem k else jget en k)
      ∧ (jget (selectFold selected (en, rem)).2 k =
        if k ∈ selected ∧ truthyOpt (jget rem k) = true then none else jget rem k) := by
  induction selected with
  | nil =>
      intro en rem k
      simp [selectFold]
  | cons s0 S ih =>
      intro en rem k
      cases hrem : jget rem s0 with
      | none =>
          have hstep : selectFold (s0 :: S) (en, rem) = selectFold S (en, rem) := by
            simp [selectFold, List.foldl, hrem]
          obtain ⟨ihE, ihR⟩ := ih en rem k
          have hc : (k ∈ S ∧ truthyOpt (jget rem k) = true)
              ↔ (k ∈ s0 :: S ∧ truthyOpt (jget rem k) = true) := by
            by_cases hks : k = s0
            · subst hks; simp [hrem, truthyOpt]
            · simp [List.mem_cons, hks]
          rw [hstep]
          exact ⟨by rw [ihE]; exact if_congr hc rfl rfl,
                 by rw [ihR]; exact if_congr hc rfl rfl⟩
      | some v =>
          by_cases htr : jvTruthy v = true
          · have hstep : selectFold (s0 :: S) (en, rem)
                = selectFold S (jset en s0 v, jdel rem s0) := by
              simp [selectFold, List.foldl, hrem, htr]
            obtain ⟨ihE, ihR⟩ := ih (jset en s0 v) (jdel rem s0) k
            rw [hstep]
            by_cases hks : k = s0
            · subst hks
              constructor
              · rw [ihE]
                simp [jget_jdel_self, truthyOpt, jget_jset_self, hrem, htr,
                  List.mem_cons]
              · rw [ihR]
                simp [jget_jdel_self, truthyOpt, hrem, htr, List.mem_cons]
            · rw [jget_jdel_ne rem s0 k hks] at ihE ihR
              rw [jget_jset_ne en s0 k v hks] at ihE
              constructor
              · rw [ihE]
                exact if_congr (by simp [List.mem_cons, hks]) rfl rfl
              · rw [ihR]
                exact if_congr (by simp [List.mem_cons, hks]) rfl rfl
          · have hstep : selectFold (s0 :: S) (en, rem) = selectFold S (en, rem) := by
              simp [selectFold, List.foldl, hrem, htr]
            obtain ⟨ihE, ihR⟩ := ih en rem k
            have hc : (k ∈ S ∧ truthyOpt (jget rem k) = true)
                ↔ (k ∈ s0 :: S ∧ truthyOpt (jget rem k) = true) := by
              by_cases hks : k = s0
              · subst hks
                simp [hrem, truthyOpt, htr]
              · simp [List.mem_cons, hks]
            rw [hstep]
            exact ⟨by rw [ihE]; exact if_congr hc rfl rfl,
                   by rw [ihR]; exact if_congr hc rfl rfl⟩

/-- The branch condition deciding that `smartLoadPreset` places an entry
into the new enabled bucket: the merged preset value is truthy and the
preset's enabled bucket holds a truthy entry for the name. -/
def smartEnabledCond (preset presetMcps : List (String × JVal)) (k : String) : Bool :=
  truthyOpt (jget presetMcps k) && smartPlaceEnabled preset k

theorem smartMergeStep_fst (preset presetMcps ne nd : List (String × JVal))
    (news : List String) (k0 : String) (v0 : JVal) :
    (smartMergeStep preset presetMcps (ne, nd, news) (k0, v0)).1
      = if smartEnabledCond preset presetMcps k0 = true then jset ne k0 v0 else ne := by
  unfold smartMergeStep smartEnabledCond
  cases hpm : jget presetMcps k0 with
  | none => simp [truthyOpt]
  | some pv =>
      by_cases htr : jvTruthy pv = true
      · by_cases hpl : smartPlaceEnabled preset k0 = true <;>
          simp [truthyOpt, htr, hpl]
      · simp [truthyOpt, htr]

theorem smartMergeStep_snd (preset presetMcps ne nd : List (String × JVal))
    (news : List String) (k0 : String) (v0 : JVal) :
    (smartMergeStep preset presetMcps (ne, nd, news) (k0, v0)).2.1
      = if smartEnabledCond preset presetMcps k0 = true then nd else jset nd k0 v0 := by
  unfold smartMergeStep smartEnabledCond
  cases hpm : jget presetMcps k0 with
  | none => simp [truthyOpt]
  | some pv =>
      by_cases htr : jvTruthy pv = true
      · by_cases hpl : smartPlaceEnabled preset k0 = true <;>
          simp [truthyOpt, htr, hpl]
      · simp [truthyOpt, htr]

theorem smartMergeStep_news (preset presetMcps ne nd : List (String × JVal))
    (news : List String) (k0 : String) (v0 : JVal) :
    (smartMergeStep preset presetMcps (ne, nd, news) (k0, v0)).2.2
      = if truthyOpt (jget presetMcps k0) = true then news else news ++ [k0] := by
  unfold smartMergeStep
  cases hpm : jget presetMcps k0 with
  | none => simp [truthyOpt]
  | some pv =>
      by_cases htr : jvTruthy pv = true
      · by_cases hpl : smartPlaceEnabled preset k0 = true <;>
          simp [truthyOpt, htr, hpl]
      · simp [truthyOpt, htr]

/-- Content of the `smartLoadPreset` loop: starting from an accumulator
holding none of the iterated keys, a key of the entry list lands in the
new enabled map exactly when the enabled-placement condition holds for it,
in the new disabled map otherwise, always with the entry list's value; the
report collects, in order, the keys whose merged preset value is not
truthy. -/
theorem smartMergeFoldFrom_spec (preset presetMcps : List (String × JVal)) :
    ∀ (entries ne nd : List (String × JVal)) (news : List String),
      nodupKeysB entries = true →
      (∀ k', jhas entries k' = true → jget ne k' = none ∧ jget nd k' = none) →
      ∀ k,
        (jget (smartMergeFoldFrom preset presetMcps (ne, nd, news) entries).1 k =
          if jhas entries k = true ∧ smartEnabledCond preset presetMcps k = true
          then jget entries k else jget ne k)
        ∧ (jget (smartMergeFoldFrom preset presetMcps (ne, nd, news) entries).2.1 k =
          if jhas entries k = true ∧ smartEnabledCond preset presetMcps k = false
          then jget entries k else jget nd k)
        ∧ (smartMergeFoldFrom preset presetMcps (ne, nd, news) entries).2.2 =
          news ++ (entries.map Prod.fst).filter
            (fun k' => !truthyOpt (jget presetMcps k')) := by
  intro entries
  induction entries with
  | nil =>
      intro ne nd news _ _ k
      simp [smartMergeFoldFrom, jhas, jget]
  | cons p rest ih =>
      intro ne nd news hnodup hpre k
      obtain ⟨k0, v0⟩ := p
      have hk0 : jhas rest k0 = false := by
        have := hnodup
        simp [nodupKeysB] at this
        simpa using this.1
      have hrest : nodupKeysB rest = true := by
        have := hnodup
        simp [nodupKeysB] at this
        exact this.2
      have hstep : smartMergeFoldFrom preset presetMcps (ne, nd, news) ((k0, v0) :: rest)
          = smartMergeFoldFrom preset presetMcps
              (smartMergeStep preset presetMcps (ne, nd, news) (k0, v0)) rest := rfl
      set acc' := smartMergeStep preset presetMcps (ne, nd, news) (k0, v0) with hacc
      have hacc' : acc' = (acc'.1, acc'.2.1, acc'.2.2) := rfl
      have h1 := smartMergeStep_fst preset presetMcps ne nd news k0 v0
      have h2 := smartMergeStep_snd preset presetMcps ne nd news k0 v0
      have h3 := smartMergeStep_news preset presetMcps ne nd news k0 v0
      rw [← hacc] at h1 h2 h3
      -- the new accumulator still avoids every key of `rest`
      have hpre' : ∀ k', jhas rest k' = true →
          jget acc'.1 k' = none ∧ jget acc'.2.1 k' = none := by
        intro k' hk'
        have hne : k' ≠ k0 := by
          intro hkk
          rw [hkk] at hk'
          rw [hk'] at hk0
          exact Bool.noConfusion hk0
        have hbase := hpre k' (by
          by_cases hkk : k0 = k' <;> simp [jhas, jget, hkk]
          simpa [jhas] using hk')
        constructor
        · rw [h1]
          by_cases hc : smartEnabledCond preset presetMcps k0 = true
          · rw [if_pos hc, jget_jset_ne ne k0 k' v0 hne]
            exact hbase.1
          · rw [if_neg hc]
            exact hbase.1
        · rw [h2]
          by_cases hc : smartEnabledCond preset presetMcps k0 = true
          · rw [if_pos hc]
            exact hbase.2
          · rw [if_neg hc, jget_jset_ne nd k0 k' v0 hne]
            exact hbase.2
      obtain ⟨ihE, ihD, ihN⟩ := ih acc'.1 acc'.2.1 acc'.2.2 hrest hpre' k
      rw [← hacc'] at ihE ihD ihN
      rw [hstep]
      by_cases hks : k = k0
      · subst hks
        have hhas : jhas ((k, v0) :: rest) k = true := by simp [jhas, jget]
        have hget : jget ((k, v0) :: rest) k = some v0 := by simp [jget]
        refine ⟨?_, ?_, ?_⟩
        · rw [ihE, if_neg (by simp [hk0])]
          rw [h1]
          by_cases hc : smartEnabledCond preset presetMcps k = true
          · rw [if_pos hc, jget_jset_self]
            rw [hget, if_pos ⟨hhas, hc⟩]
          · rw [if_neg hc]
            rw [if_neg (by simp [hc])]
        · rw [ihD, if_neg (by simp [hk0])]
          rw [h2]
          by_cases hc : smartEnabledCond preset presetMcps k = true
          · rw [if_pos hc]
            rw [if_neg (by simp [hc])]
          · rw [if_neg hc, jget_jset_self]
            rw [hget, if_pos ⟨hhas, by simpa using hc⟩]
        · rw [ihN, h3]
          by_cases ht : truthyOpt (jget presetMcps k) = true
          · simp [ht]
          · simp [ht, List.append_assoc]
      · have hhas : jhas ((k0, v0) :: rest) k = jhas rest k := by
          simp [jhas, jget, Ne.symm hks]
        have hget : jget ((k0, v0) :: rest) k = jget rest k := by
          simp [jget, Ne.symm hks]
        refine ⟨?_, ?_, ?_⟩
        · rw [ihE, hhas, hget, h1]
          by_cases hc : smartEnabledCond preset presetMcps k0 = true
          · rw [if_pos hc, jget_jset_ne ne k0 k v0 hks]
          · rw [if_neg hc]
        · rw [ihD, hhas, hget, h2]
          by_cases hc : smartEnabledCond preset presetMcps k0 = true
          · rw [if_pos hc]
          · rw [if_neg hc, jget_jset_ne nd k0 k v0 hks]
        · rw [ihN, h3]
          by_cases ht : truthyOpt (jget presetMcps k0) = true
          · simp [ht]
          · simp [ht, List.append_assoc]

theorem jhas_iff_mem_keys (l : List (String × JVal)) (k : String) :
    jhas l k = true ↔ k ∈ l.map Prod.fst := by
  induction l with
  | nil => simp [jhas, jget]
  | cons p rest ih =>
      by_cases h : p.1 = k
      · simp [jhas, jget, h]
      · simp only [jhas, jget, if_neg h, List.map_cons, List.mem_cons]
        rw [← jhas]
        constructor
        · intro hh
          exact Or.inr (ih.mp hh)
        · intro hh
          rcases hh with hh | hh
          · exact absurd hh.symm h
          · exact ih.mpr hh

theorem nodupKeysB_iff (l : List (String × JVal)) :
    nodupKeysB l = true ↔ (l.map Prod.fst).Nodup := by
  induction l with
  | nil => simp [nodupKeysB]
  | cons p rest ih =>
      simp only [nodupKeysB, Bool.and_eq_true, Bool.not_eq_true',
        List.map_cons, List.nodup_cons]
      constructor
      · intro ⟨h1, h2⟩
        refine ⟨?_, ih.mp h2⟩
        intro hmem
        rw [← jhas_iff_mem_keys] at hmem
        rw [hmem] at h1
        exact Bool.noConfusion h1
      · intro ⟨h1, h2⟩
        refine ⟨?_, ih.mpr h2⟩
        cases hj : jhas rest p.1 with
        | false => rfl
        | true => exact absurd (jhas_iff_mem_keys rest p.1 |>.mp hj) h1

theorem keys_mergeMap (a b : List (String × JVal)) :
    ((a.map (fun p =>
        match jget b p.1 with
        | some v => (p.1, v)
        | none => p)).map Prod.fst) = a.map Prod.fst := by
  induction a with
  | nil => rfl
  | cons p rest ih =>
      cases h : jget b p.1 <;> simp [h, ih]

/-- The spread merge of two duplicate-free objects is duplicate-free
(JS object literals cannot hold duplicate keys). -/
theorem nodupKeysB_jmerge (a b : List (String × JVal))
    (ha : nodupKeysB a = true) (hb : nodupKeysB b = true) :
    nodupKeysB (jmerge a b) = true := by
  rw [nodupKeysB_iff] at ha hb ⊢
  unfold jmerge
  rw [List.map_append, keys_mergeMap, List.nodup_append]
  refine ⟨ha, ?_, ?_⟩
  · exact ((List.filter_sublist b).map Prod.fst).nodup hb
  · intro x hxa hxb
    rw [List.mem_map] at hxb
    obtain ⟨q, hq, hqx⟩ := hxb
    rw [List.mem_filter] at hq
    have : jhas a q.1 = false := by
      have := hq.2
      simpa using this
    rw [← hqx] at hxa
    rw [← jhas_iff_mem_keys] at hxa
    rw [hxa] at this
    exact Bool.noConfusion this

/-- A well-formed bucket key is either absent (empty bucket) or holds
exactly the bucket object. -/
theorem bucketKeyWF_cases (cfg : List (String × JVal)) (key : String)
    (h : bucketKeyWF cfg key = true) :
    (jget cfg key = none ∧ bucketOf cfg key = []) ∨
    (jget cfg key = some (.obj (bucketOf cfg key))
      ∧ nodupKeysB (bucketOf cfg key) = true) := by
  unfold bucketKeyWF at h
  unfold bucketOf
  cases hg : jget cfg key with
  | none => exact Or.inl ⟨rfl, rfl⟩
  | some v =>
      rw [hg] at h
      cases v with
      | obj l => exact Or.inr ⟨rfl, h⟩
      | null => exact Bool.noConfusion h
      | bool b => exact Bool.noConfusion h
      | num n => exact Bool.noConfusion h
      | str s => exact Bool.noConfusion h
      | arr es => exact Bool.noConfusion h

theorem nodupKeysB_bucketOf (cfg : List (String × JVal)) (key : String)
    (h : bucketKeyWF cfg key = true) : nodupKeysB (bucketOf cfg key) = true := by
  rcases bucketKeyWF_cases cfg key h with ⟨_, hb⟩ | ⟨_, hb⟩
  · rw [hb]; rfl
  · exact hb

/-- Under a well-formed preset, the enabled-placement test of
`smartLoadPreset` is exactly truthiness of the name's entry in the
preset's enabled bucket. -/
theorem smartPlaceEnabled_eq_of_wf (preset : List (String × JVal))
    (h : bucketKeyWF preset "mcpServers" = true) (k : String) :
    smartPlaceEnabled preset k
      = truthyOpt (jget (bucketOf preset "mcpServers") k) := by
  rcases bucketKeyWF_cases preset "mcpServers" h with ⟨hg, hb⟩ | ⟨hg, _⟩
  · unfold smartPlaceEnabled
    rw [hg, hb]
    simp [jget, truthyOpt]
  · unfold smartPlaceEnabled
    rw [hg]
    simp [jvTruthy, jvIndex]

/-! ## Claims -/

/-- C3, counterexample: the claim requires the fixed latest-slot backup to
complete before the live overwrite on *every* write-back path.  The beta
JSON-repair path (`attemptJsonFix`) overwrites the live file even when its
(timestamped, not latest-slot) backup failed, and the compact `checkConfig`
fix path overwrites the live file with no backup at all. -/
theorem c3_counterexample :
    IoEvent.writeLive ∈ attemptJsonFixTrace false true
    ∧ IoEvent.writeLatestBackup ∉ attemptJsonFixTrace false true
    ∧ IoEvent.writeTimestampBackup ∉ attemptJsonFixTrace false true
    ∧ checkConfigFixTrace = [IoEvent.writeLive]
    ∧ IoEvent.writeLatestBackup ∉ checkConfigFixTrace := by
  refine ⟨by decide, by decide, by decide, rfl, by decide⟩

/-- C3 (amended): the backup-then-overwrite ordering holds on the
`writeConfig` path — the latest-slot backup completes first and a backup
failure suppresses the live write — and restore paths likewise complete
their pre-restore backup first; but the check/fix write-back paths never
touch the latest slot (the beta ones take a timestamped backup and write
the live file even if that backup failed; the compact ones take no backup
at all). -/
theorem c3_amended (backupOk fixParses : Bool) :
    (IoEvent.writeLive ∈ writeConfigTrace backupOk →
      writeConfigTrace backupOk = [IoEvent.writeLatestBackup, IoEvent.writeLive])
    ∧ (backupOk = false → IoEvent.writeLive ∉ writeConfigTrace backupOk)
    ∧ IoEvent.writeLatestBackup ∉ attemptJsonFixTrace backupOk fixParses
    ∧ IoEvent.writeLatestBackup ∉ checkConfigFixTrace
    ∧ (IoEvent.writeLive ∈ restoreTrace backupOk →
        restoreTrace backupOk = [IoEvent.writePreRestoreBackup, IoEvent.writeLive]) := by
  cases backupOk <;> cases fixParses <;> exact ⟨by decide, by decide, by decide, by decide, by decide⟩

/-- C3 witness: with a succeeding backup step, the `writeConfig` trace is
exactly backup-then-overwrite. -/
theorem c3_amended_witness :
    writeConfigTrace true = [IoEvent.writeLatestBackup, IoEvent.writeLive] :=
  (c3_amended true true).1 (by decide)

/-- C6, counterexample: the claim says "the repair engine" applies four
transforms; the compact variant's repair (`checkConfig`,
src/claude-config-manager.js:499-501) applies only the first two, so the
bare-key input stays unrepaired there while the beta engine quotes it. -/
theorem c6_counterexample :
    checkConfigFixedText (lbrace :: 'a' :: ':' :: '1' :: [rbrace])
      = lbrace :: 'a' :: ':' :: '1' :: [rbrace]
    ∧ attemptJsonFixText (lbrace :: 'a' :: ':' :: '1' :: [rbrace])
      = lbrace :: dquote :: 'a' :: dquote :: ':' :: '1' :: [rbrace]
    ∧ checkConfigFixedText (lbrace :: 'a' :: ':' :: '1' :: [rbrace])
      ≠ attemptJsonFixText (lbrace :: 'a' :: ':' :: '1' :: [rbrace]) := by
  refine ⟨by decide, by decide, by decide⟩

/-- C6 (amended): the beta engine (`attemptJsonFix`) applies the four text
transforms in the fixed order trailing-comma, missing-comma, repeated
bare-key quoting, single-to-double quotes (the last only when the text has
single quotes and no double quotes), followed by exactly one re-parse of
the fully transformed text; the compact variant's repair applies only the
first two transforms before its single re-parse.  The repair examples:
a trailing comma is removed, a bare key is quoted, single-quoted text is
double-quoted. -/
theorem c6_amended (parse : List Char → Option JVal) (raw : List Char) :
    attemptJsonFixResult parse raw
      = parse (singleToDoubleQuotes (quoteBareKeysLoop
          ((insertMissingCommas (removeTrailingCommas raw)).length + 1)
          (insertMissingCommas (removeTrailingCommas raw))))
    ∧ checkConfigFixResult parse raw
      = parse (insertMissingCommas (removeTrailingCommas raw))
    ∧ attemptJsonFixText
        (lbrace :: String.toList "\"a\":1,\"b\":2," ++ [rbrace])
      = lbrace :: String.toList "\"a\":1,\"b\":2" ++ [rbrace]
    ∧ attemptJsonFixText (lbrace :: 'a' :: ':' :: '1' :: [rbrace])
      = lbrace :: dquote :: 'a' :: dquote :: ':' :: '1' :: [rbrace]
    ∧ attemptJsonFixText (lbrace :: squote :: 'a' :: squote :: ':' :: '1' :: [rbrace])
      = lbrace :: dquote :: 'a' :: dquote :: ':' :: '1' :: [rbrace] := by
  refine ⟨rfl, rfl, by decide, by decide, by decide⟩

/-- C7, counterexample: normalizing the empty configuration creates the
enabled bucket but does *not* create the absent `disabledMcpServers`
bucket, contradicting "both … exist as mappings" in the claim. -/
theorem c7_counterexample :
    fixConfigStructure [] = [("mcpServers", JVal.obj [])]
    ∧ jget (fixConfigStructure []) "disabledMcpServers" = none := by
  exact ⟨rfl, rfl⟩

/-- C7 (amended): `fixConfigStructure` replaces the enabled bucket by an
empty mapping when it is absent, falsy or not of object type (so the
enabled bucket always exists afterwards), but replaces the disabled bucket
only when it is present, truthy and of non-object type — an absent (or
`null`) disabled bucket is left as it was; every other top-level field is
preserved unmodified. -/
theorem c7_amended (cfg : List (String × JVal)) (k : String)
    (h1 : k ≠ "mcpServers") (h2 : k ≠ "disabledMcpServers") :
    ((jget (fixConfigStructure cfg) "mcpServers").isSome = true)
    ∧ (jget (fixConfigStructure cfg) "mcpServers" =
        match jget cfg "mcpServers" with
        | some v =>
            if !(jvTruthy v) || !(jvTypeofObject v) then some (JVal.obj [])
            else some v
        | none => some (JVal.obj []))
    ∧ (jget (fixConfigStructure cfg) "disabledMcpServers" =
        match jget cfg "disabledMcpServers" with
        | some v =>
            if jvTruthy v && !(jvTypeofObject v) then some (JVal.obj []) else some v
        | none => none)
    ∧ jget (fixConfigStructure cfg) k = jget cfg k := by
  have hmd : ("disabledMcpServers" : String) ≠ "mcpServers" := by decide
  have hdm : ("mcpServers" : String) ≠ "disabledMcpServers" := by decide
  unfold fixConfigStructure
  cases hm : jget cfg "mcpServers" with
  | none =>
      dsimp only
      have hd1 : jget (jset cfg "mcpServers" (JVal.obj [])) "disabledMcpServers"
          = jget cfg "disabledMcpServers" := jget_jset_ne _ _ _ _ hmd
      rw [hd1]
      cases hd : jget cfg "disabledMcpServers" with
      | none =>
          dsimp only
          refine ⟨?_, ?_, ?_, ?_⟩
          · simp [jget_jset_self]
          · simp [jget_jset_self]
          · rw [hd1, hd]
          · exact jget_jset_ne _ _ _ _ h1
      | some dv =>
          dsimp only
          by_cases hc2 : (jvTruthy dv && !(jvTypeofObject dv)) = true
          · rw [if_pos hc2]
            refine ⟨?_, ?_, ?_, ?_⟩
            · simp [jget_jset_ne _ _ _ _ hdm, jget_jset_self]
            · simp [jget_jset_ne _ _ _ _ hdm, jget_jset_self]
            · rw [jget_jset_self, if_pos hc2]
            · rw [jget_jset_ne _ _ _ _ h2, jget_jset_ne _ _ _ _ h1]
          · rw [if_neg hc2]
            refine ⟨?_, ?_, ?_, ?_⟩
            · simp [jget_jset_self]
            · simp [jget_jset_self]
            · rw [hd1, hd, if_neg hc2]
            · exact jget_jset_ne _ _ _ _ h1
  | some mv =>
      dsimp only
      by_cases hc1 : (!(jvTruthy mv) || !(jvTypeofObject mv)) = true
      · rw [if_pos hc1]
        have hd1 : jget (jset cfg "mcpServers" (JVal.obj [])) "disabledMcpServers"
            = jget cfg "disabledMcpServers" := jget_jset_ne _ _ _ _ hmd
        rw [hd1]
        cases hd : jget cfg "disabledMcpServers" with
        | none =>
            dsimp only
            refine ⟨?_, ?_, ?_, ?_⟩
            · simp [jget_jset_self]
            · rw [jget_jset_self, if_pos hc1]
            · rw [hd1, hd]
            · exact jget_jset_ne _ _ _ _ h1
        | some dv =>
            dsimp only
            by_cases hc2 : (jvTruthy dv && !(jvTypeofObject dv)) = true
            · rw [if_pos hc2]
              refine ⟨?_, ?_, ?_, ?_⟩
              · simp [jget_jset_ne _ _ _ _ hdm, jget_jset_self]
              · rw [jget_jset_ne _ _ _ _ hdm, jget_jset_self, if_pos hc1]
              · rw [jget_jset_self, if_pos hc2]
              · rw [jget_jset_ne _ _ _ _ h2, jget_jset_ne _ _ _ _ h1]
            · rw [if_neg hc2]
              refine ⟨?_, ?_, ?_, ?_⟩
              · simp [jget_jset_self]
              · rw [jget_jset_self, if_pos hc1]
              · rw [hd1, hd, if_neg hc2]
              · exact jget_jset_ne _ _ _ _ h1
      · rw [if_neg hc1]
        cases hd : jget cfg "disabledMcpServers" with
        | none =>
            dsimp only
            refine ⟨?_, ?_, ?_, ?_⟩
            · simp [hm]
            · rw [hm, if_neg hc1]
            · rw [hd]
            · rfl
        | some dv =>
            dsimp only
            by_cases hc2 : (jvTruthy dv && !(jvTypeofObject dv)) = true
            · rw [if_pos hc2]
              refine ⟨?_, ?_, ?_, ?_⟩
              · simp [jget_jset_ne _ _ _ _ hdm, hm]
              · rw [jget_jset_ne _ _ _ _ hdm, hm, if_neg hc1]
              · rw [jget_jset_self, if_pos hc2]
              · exact jget_jset_ne _ _ _ _ h2
            · rw [if_neg hc2]
              refine ⟨?_, ?_, ?_, ?_⟩
              · simp [hm]
              · rw [hm, if_neg hc1]
              · rw [hd, if_neg hc2]
              · rfl

/-- C7 witness: a concrete configuration with a numeric enabled bucket, a
string disabled bucket and an extra field, run through the amended
statement. -/
theorem c7_amended_witness :
    ((jget (fixConfigStructure
        [("theme", JVal.str "dark"), ("mcpServers", JVal.num 5),
         ("disabledMcpServers", JVal.str "x")]) "mcpServers").isSome = true)
    ∧ (jget (fixConfigStructure
        [("theme", JVal.str "dark"), ("mcpServers", JVal.num 5),
         ("disabledMcpServers", JVal.str "x")]) "mcpServers" =
        match jget [("theme", JVal.str "dark"), ("mcpServers", JVal.num 5),
         ("disabledMcpServers", JVal.str "x")] "mcpServers" with
        | some v =>
            if !(jvTruthy v) || !(jvTypeofObject v) then some (JVal.obj [])
            else some v
        | none => some (JVal.obj []))
    ∧ (jget (fixConfigStructure
        [("theme", JVal.str "dark"), ("mcpServers", JVal.num 5),
         ("disabledMcpServers", JVal.str "x")]) "disabledMcpServers" =
        match jget [("theme", JVal.str "dark"), ("mcpServers", JVal.num 5),
         ("disabledMcpServers", JVal.str "x")] "disabledMcpServers" with
        | some v =>
            if jvTruthy v && !(jvTypeofObject v) then some (JVal.obj []) else some v
        | none => none)
    ∧ jget (fixConfigStructure
        [("theme", JVal.str "dark"), ("mcpServers", JVal.num 5),
         ("disabledMcpServers", JVal.str "x")]) "theme" =
      jget [("theme", JVal.str "dark"), ("mcpServers", JVal.num 5),
         ("disabledMcpServers", JVal.str "x")] "theme" :=
  c7_amended _ "theme" (by decide) (by decide)

/-- C10, counterexample: a configuration *has* a `disabledMcpServers` key
(value `null`) and no `mcpServers` key, yet neither enable-all variant
throws: the truthiness guard `if (config.disabledMcpServers)` skips the
whole block, so the operation returns without mutating anything. -/
theorem c10_counterexample :
    jhas [("disabledMcpServers", JVal.null)] "disabledMcpServers" = true
    ∧ jhas [("disabledMcpServers", JVal.null)] "mcpServers" = false
    ∧ enableAllConfig [("disabledMcpServers", JVal.null)]
        = some [("disabledMcpServers", JVal.null)]
    ∧ handleExportAllEnabledConfig [("disabledMcpServers", JVal.null)]
        = some [("disabledMcpServers", JVal.null)] :=
  ⟨rfl, rfl, rfl, rfl⟩

/-- C10 (amended): when the `disabledMcpServers` value is truthy and its
bucket is non-empty while `mcpServers` is absent, both enable-all variants
throw a TypeError (`Object.assign` on `undefined`, resp. property
assignment on `undefined`); the compact variant throws even when the
truthy disabled bucket is empty. -/
theorem c10_amended (cfg : List (String × JVal)) (dv : JVal)
    (hd : jget cfg "disabledMcpServers" = some dv)
    (hdt : jvTruthy dv = true)
    (hm : jget cfg "mcpServers" = none)
    (hne : bucketOf cfg "disabledMcpServers" ≠ []) :
    enableAllConfig cfg = none
    ∧ handleExportAllEnabledConfig cfg = none
    ∧ enableAllConfig [("disabledMcpServers", JVal.obj [])] = none := by
  have ht : jtruthyAt cfg "disabledMcpServers" = true := by
    simp [jtruthyAt, hd, truthyOpt, hdt]
  refine ⟨?_, ?_, rfl⟩
  · unfold enableAllConfig
    rw [if_pos ht, hm]
  · unfold handleExportAllEnabledConfig
    rw [if_pos ht]
    dsimp only
    rw [hm]
    cases hb : bucketOf cfg "disabledMcpServers" with
    | nil => exact absurd hb hne
    | cons q qs => rfl

/-- C10 witness: a concrete configuration with one truthy disabled entry
and no enabled bucket makes both enable-all variants throw. -/
theorem c10_amended_witness :
    enableAllConfig [("disabledMcpServers", JVal.obj [("a", JVal.str "x")])] = none
    ∧ handleExportAllEnabledConfig
        [("disabledMcpServers", JVal.obj [("a", JVal.str "x")])] = none
    ∧ enableAllConfig [("disabledMcpServers", JVal.obj [])] = none :=
  c10_amended _ _ rfl rfl rfl (List.cons_ne_nil _ _)

/-- Frame helper: the toggle operation changes only the two bucket keys of
the configuration it returns. -/
theorem toggleConfig_frame (cfg : List (String × JVal)) (n k : String)
    (h1 : k ≠ "mcpServers") (h2 : k ≠ "disabledMcpServers")
    (cfg' : List (String × JVal)) (h : toggleConfig cfg n = some cfg') :
    jget cfg' k = jget cfg k := by
  have hdm : ("mcpServers" : String) ≠ "disabledMcpServers" := by decide
  unfold toggleConfig at h
  by_cases hdt : jtruthyAt cfg "disabledMcpServers" = true
  · rw [if_pos hdt] at h
    dsimp only at h
    by_cases he : jhas (bucketOf cfg "mcpServers") n = true
    · rw [if_pos he] at h
      injection h with h'
      subst h'
      rw [jget_jset_ne _ _ _ _ h1, jget_jset_ne _ _ _ _ h2]
    · rw [if_neg he] at h
      by_cases hdd : jhas (bucketOf cfg "disabledMcpServers") n = true
      · rw [if_pos hdd] at h
        cases hmm : jget cfg "mcpServers" with
        | none => rw [hmm] at h; exact absurd h (by simp)
        | some v =>
            rw [hmm] at h
            cases v with
            | obj eo =>
                dsimp only at h
                injection h with h'
                subst h'
                rw [jget_jset_ne _ _ _ _ h2, jget_jset_ne _ _ _ _ h1]
            | null => exact absurd h (by simp)
            | bool b => exact absurd h (by simp)
            | num m => exact absurd h (by simp)
            | str s => exact absurd h (by simp)
            | arr es => exact absurd h (by simp)
      · rw [if_neg hdd] at h
        injection h with h'
        subst h'
        rfl
  · rw [if_neg hdt] at h
    dsimp only at h
    by_cases he : jhas (bucketOf cfg "mcpServers") n = true
    · rw [if_pos he] at h
      injection h with h'
      subst h'
      rw [jget_jset_ne _ _ _ _ h1, jget_jset_ne _ _ _ _ h2,
        jget_jset_ne _ _ _ _ h2]
    · rw [if_neg he] at h
      by_cases hdd : jhas (bucketOf cfg "disabledMcpServers") n = true
      · rw [if_pos hdd] at h
        have hmm0 : jget (jset cfg "disabledMcpServers" (JVal.obj [])) "mcpServers"
            = jget cfg "mcpServers" := jget_jset_ne _ _ _ _ hdm
        rw [hmm0] at h
        cases hmm : jget cfg "mcpServers" with
        | none => rw [hmm] at h; exact absurd h (by simp)
        | some v =>
            rw [hmm] at h
            cases v with
            | obj eo =>
                dsimp only at h
                injection h with h'
                subst h'
                rw [jget_jset_ne _ _ _ _ h2, jget_jset_ne _ _ _ _ h1,
                  jget_jset_ne _ _ _ _ h2]
            | null => exact absurd h (by simp)
            | bool b => exact absurd h (by simp)
            | num m => exact absurd h (by simp)
            | str s => exact absurd h (by simp)
            | arr es => exact absurd h (by simp)
      · rw [if_neg hdd] at h
        injection h with h'
        subst h'
        rfl

/-- Frame helper: the compact enable-all changes only the two bucket keys. -/
theorem enableAllConfig_frame (cfg : List (String × JVal)) (k : String)
    (h1 : k ≠ "mcpServers") (h2 : k ≠ "disabledMcpServers")
    (cfg' : List (String × JVal)) (h : enableAllConfig cfg = some cfg') :
    jget cfg' k = jget cfg k := by
  unfold enableAllConfig at h
  by_cases hdt : jtruthyAt cfg "disabledMcpServers" = true
  · rw [if_pos hdt] at h
    cases hmm : jget cfg "mcpServers" with
    | none => rw [hmm] at h; exact absurd h (by simp)
    | some v =>
        rw [hmm] at h
        cases v with
        | obj eo =>
            dsimp only at h
            injection h with h'
            subst h'
            rw [jget_jset_ne _ _ _ _ h2, jget_jset_ne _ _ _ _ h1]
        | null => exact absurd h (by simp)
        | bool b => exact absurd h (by simp)
        | num m => exact absurd h (by simp)
        | str s => exact absurd h (by simp)
        | arr es => exact absurd h (by simp)
  · rw [if_neg hdt] at h
    injection h with h'
    subst h'
    rfl

/-- Frame helper: the beta enable-all changes only the two bucket keys. -/
theorem handleExportAllEnabledConfig_frame (cfg : List (String × JVal)) (k : String)
    (h1 : k ≠ "mcpServers") (h2 : k ≠ "disabledMcpServers")
    (cfg' : List (String × JVal)) (h : handleExportAllEnabledConfig cfg = some cfg') :
    jget cfg' k = jget cfg k := by
  unfold handleExportAllEnabledConfig at h
  by_cases hdt : jtruthyAt cfg "disabledMcpServers" = true
  · rw [if_pos hdt] at h
    dsimp only at h
    cases hmm : jget cfg "mcpServers" with
    | none =>
        rw [hmm] at h
        cases hb : bucketOf cfg "disabledMcpServers" with
        | nil =>
            rw [hb] at h
            injection h with h'
            subst h'
            rw [jget_jset_ne _ _ _ _ h2]
        | cons q qs => rw [hb] at h; exact absurd h (by simp)
    | some v =>
        rw [hmm] at h
        cases v with
        | obj eo =>
            dsimp only at h
            injection h with h'
            subst h'
            rw [jget_jset_ne _ _ _ _ h2, jget_jset_ne _ _ _ _ h1]
        | null => exact absurd h (by simp)
        | bool b => exact absurd h (by simp)
        | num m => exact absurd h (by simp)
        | str s => exact absurd h (by simp)
        | arr es => exact absurd h (by simp)
  · rw [if_neg hdt] at h
    injection h with h'
    subst h'
    rfl

/-- Frame helper: select-exactly changes only the two bucket keys. -/
theorem selectExactlyConfig_frame (cfg : List (String × JVal)) (sel : List String)
    (k : String) (h1 : k ≠ "mcpServers") (h2 : k ≠ "disabledMcpServers") :
    jget (selectExactlyConfig cfg sel) k = jget cfg k := by
  unfold selectExactlyConfig
  rw [jget_jset_ne _ _ _ _ h2, jget_jset_ne _ _ _ _ h1]

/-- Frame helper: the structure fix changes only the two bucket keys. -/
theorem fixConfigStructure_frame (cfg : List (String × JVal)) (k : String)
    (h1 : k ≠ "mcpServers") (h2 : k ≠ "disabledMcpServers") :
    jget (fixConfigStructure cfg) k = jget cfg k := by
  unfold fixConfigStructure
  cases hm : jget cfg "mcpServers" with
  | none =>
      dsimp only
      have hstep : jget (jset cfg "mcpServers" (JVal.obj [])) k = jget cfg k :=
        jget_jset_ne _ _ _ _ h1
      cases hd : jget (jset cfg "mcpServers" (JVal.obj [])) "disabledMcpServers" with
      | none => exact hstep
      | some dv =>
          dsimp only
          by_cases hc2 : (jvTruthy dv && !(jvTypeofObject dv)) = true
          · rw [if_pos hc2, jget_jset_ne _ _ _ _ h2, hstep]
          · rw [if_neg hc2, hstep]
  | some mv =>
      dsimp only
      by_cases hc1 : (!(jvTruthy mv) || !(jvTypeofObject mv)) = true
      · rw [if_pos hc1]
        have hstep : jget (jset cfg "mcpServers" (JVal.obj [])) k = jget cfg k :=
          jget_jset_ne _ _ _ _ h1
        cases hd : jget (jset cfg "mcpServers" (JVal.obj [])) "disabledMcpServers" with
        | none => exact hstep
        | some dv =>
            dsimp only
            by_cases hc2 : (jvTruthy dv && !(jvTypeofObject dv)) = true
            · rw [if_pos hc2, jget_jset_ne _ _ _ _ h2, hstep]
            · rw [if_neg hc2, hstep]
      · rw [if_neg hc1]
        cases hd : jget cfg "disabledMcpServers" with
        | none => rfl
        | some dv =>
            dsimp only
            by_cases hc2 : (jvTruthy dv && !(jvTypeofObject dv)) = true
            · rw [if_pos hc2, jget_jset_ne _ _ _ _ h2]
            · rw [if_neg hc2]

/-- C1, counterexample: smart merge drops the unknown top-level field
`globalShortcut` of the current configuration. -/
theorem c1_counterexample :
    jget [("globalShortcut", JVal.str "Ctrl+Space"),
          ("mcpServers", JVal.obj []), ("disabledMcpServers", JVal.obj [])]
        "globalShortcut" = some (JVal.str "Ctrl+Space")
    ∧ jget (smartLoadConfig
        [("globalShortcut", JVal.str "Ctrl+Space"),
         ("mcpServers", JVal.obj []), ("disabledMcpServers", JVal.obj [])]
        [("mcpServers", JVal.obj []), ("disabledMcpServers", JVal.obj [])]).1
        "globalShortcut" = none :=
  ⟨rfl, rfl⟩

/-- C1 (amended): the toggle, enable-all (both variants), select-exactly
and structure-fix operations preserve every top-level key other than the
two server buckets in the configuration they write back; smart merge does
not — its output holds exactly the two bucket keys, so every other
top-level field is dropped. -/
theorem c1_amended (cfg cur preset : List (String × JVal)) (n k : String)
    (sel : List String)
    (h1 : k ≠ "mcpServers") (h2 : k ≠ "disabledMcpServers") :
    (toggleConfig cfg n).elim True (fun cfg' => jget cfg' k = jget cfg k)
    ∧ (enableAllConfig cfg).elim True (fun cfg' => jget cfg' k = jget cfg k)
    ∧ (handleExportAllEnabledConfig cfg).elim True
        (fun cfg' => jget cfg' k = jget cfg k)
    ∧ jget (selectExactlyConfig cfg sel) k = jget cfg k
    ∧ jget (fixConfigStructure cfg) k = jget cfg k
    ∧ jget (smartLoadConfig cur preset).1 k = none := by
  refine ⟨?_, ?_, ?_, ?_, ?_, ?_⟩
  · cases h : toggleConfig cfg n with
    | none => exact trivial
    | some cfg' => exact toggleConfig_frame cfg n k h1 h2 cfg' h
  · cases h : enableAllConfig cfg with
    | none => exact trivial
    | some cfg' => exact enableAllConfig_frame cfg k h1 h2 cfg' h
  · cases h : handleExportAllEnabledConfig cfg with
    | none => exact trivial
    | some cfg' => exact handleExportAllEnabledConfig_frame cfg k h1 h2 cfg' h
  · exact selectExactlyConfig_frame cfg sel k h1 h2
  · exact fixConfigStructure_frame cfg k h1 h2
  · unfold smartLoadConfig
    dsimp only
    simp [jget, Ne.symm h1, Ne.symm h2]

/-- C1 witness: the amended frame statement at a concrete configuration
with an extra `theme` field. -/
theorem c1_amended_witness :
    (toggleConfig [("theme", JVal.str "dark"),
        ("mcpServers", JVal.obj [("a", JVal.str "x")])] "a").elim True
      (fun cfg' => jget cfg' "theme"
        = jget [("theme", JVal.str "dark"),
            ("mcpServers", JVal.obj [("a", JVal.str "x")])] "theme")
    ∧ (enableAllConfig [("theme", JVal.str "dark"),
        ("mcpServers", JVal.obj [("a", JVal.str "x")])]).elim True
      (fun cfg' => jget cfg' "theme"
        = jget [("theme", JVal.str "dark"),
            ("mcpServers", JVal.obj [("a", JVal.str "x")])] "theme")
    ∧ (handleExportAllEnabledConfig [("theme", JVal.str "dark"),
        ("mcpServers", JVal.obj [("a", JVal.str "x")])]).elim True
      (fun cfg' => jget cfg' "theme"
        = jget [("theme", JVal.str "dark"),
            ("mcpServers", JVal.obj [("a", JVal.str "x")])] "theme")
    ∧ jget (selectExactlyConfig [("theme", JVal.str "dark"),
        ("mcpServers", JVal.obj [("a", JVal.str "x")])] ["a"]) "theme"
      = jget [("theme", JVal.str "dark"),
          ("mcpServers", JVal.obj [("a", JVal.str "x")])] "theme"
    ∧ jget (fixConfigStructure [("theme", JVal.str "dark"),
        ("mcpServers", JVal.obj [("a", JVal.str "x")])]) "theme"
      = jget [("theme", JVal.str "dark"),
          ("mcpServers", JVal.obj [("a", JVal.str "x")])] "theme"
    ∧ jget (smartLoadConfig [("theme", JVal.str "dark"),
        ("mcpServers", JVal.obj [("a", JVal.str "x")])]
        [("mcpServers", JVal.obj [])]).1 "theme" = none :=
  c1_amended _ _ _ "a" "theme" ["a"] (by decide) (by decide)

theorem jhas_jmerge (a b : List (String × JVal)) (k : String) :
    jhas (jmerge a b) k = (jhas a k || jhas b k) := by
  rw [jhas, jget_jmerge]
  cases ha : jget a k <;> cases hb : jget b k <;> simp [jhas, ha, hb]

/-- C5, counterexample: `alpha` is a known name and is selected, but its
definition value is the falsy `false`, so `handleCustomConfig`'s
`if (allMcpsObj[mcp])` guard skips it: the enabled keys after the
operation are *not* `S ∩ union(C)`. -/
theorem c5_counterexample :
    jhas (jmerge
        (bucketOf [("mcpServers", JVal.obj [("alpha", JVal.bool false)]),
          ("disabledMcpServers", JVal.obj [])] "mcpServers")
        (bucketOf [("mcpServers", JVal.obj [("alpha", JVal.bool false)]),
          ("disabledMcpServers", JVal.obj [])] "disabledMcpServers")) "alpha" = true
    ∧ jhas (bucketOf (selectExactlyConfig
        [("mcpServers", JVal.obj [("alpha", JVal.bool false)]),
         ("disabledMcpServers", JVal.obj [])] ["alpha"]) "mcpServers") "alpha" = false
    ∧ jhas (bucketOf (selectExactlyConfig
        [("mcpServers", JVal.obj [("alpha", JVal.bool false)]),
         ("disabledMcpServers", JVal.obj [])] ["alpha"]) "disabledMcpServers") "alpha"
      = true :=
  ⟨rfl, rfl, rfl⟩

/-- C5 (amended): select-exactly preserves the union of known names (no
name created or destroyed), but the enabled keys are the selected names
whose definition value in the merged map is *truthy*, not all of
`S ∩ union(C)`: a selected name with a falsy definition stays disabled.
The full characterisation of both result buckets is given. -/
theorem c5_amended (cfg : List (String × JVal)) (sel : List String) (k : String)
    (hWF : bucketsWF cfg = true) :
    (jhas (bucketOf (selectExactlyConfig cfg sel) "mcpServers") k
        || jhas (bucketOf (selectExactlyConfig cfg sel) "disabledMcpServers") k)
      = (jhas (bucketOf cfg "mcpServers") k || jhas (bucketOf cfg "disabledMcpServers") k)
    ∧ jhas (bucketOf (selectExactlyConfig cfg sel) "mcpServers") k
      = (decide (k ∈ sel) && truthyOpt (jget (jmerge (bucketOf cfg "mcpServers")
          (bucketOf cfg "disabledMcpServers")) k))
    ∧ jget (bucketOf (selectExactlyConfig cfg sel) "mcpServers") k
      = (if k ∈ sel ∧ truthyOpt (jget (jmerge (bucketOf cfg "mcpServers")
            (bucketOf cfg "disabledMcpServers")) k) = true
         then jget (jmerge (bucketOf cfg "mcpServers")
            (bucketOf cfg "disabledMcpServers")) k
         else none)
    ∧ jget (bucketOf (selectExactlyConfig cfg sel) "disabledMcpServers") k
      = (if k ∈ sel ∧ truthyOpt (jget (jmerge (bucketOf cfg "mcpServers")
            (bucketOf cfg "disabledMcpServers")) k) = true
         then none
         else jget (jmerge (bucketOf cfg "mcpServers")
            (bucketOf cfg "disabledMcpServers")) k) := by
  have hdm : ("mcpServers" : String) ≠ "disabledMcpServers" := by decide
  have hE : bucketOf (selectExactlyConfig cfg sel) "mcpServers"
      = (selectFold sel ([], jmerge (bucketOf cfg "mcpServers")
          (bucketOf cfg "disabledMcpServers"))).1 := by
    unfold selectExactlyConfig bucketOf
    rw [jget_jset_ne _ _ _ _ hdm, jget_jset_self]
  have hD : bucketOf (selectExactlyConfig cfg sel) "disabledMcpServers"
      = (selectFold sel ([], jmerge (bucketOf cfg "mcpServers")
          (bucketOf cfg "disabledMcpServers"))).2 := by
    unfold selectExactlyConfig bucketOf
    rw [jget_jset_self]
  obtain ⟨hEq, hDq⟩ := selectFold_spec sel []
    (jmerge (bucketOf cfg "mcpServers") (bucketOf cfg "disabledMcpServers")) k
  rw [hE, hD]
  refine ⟨?_, ?_, by rw [hEq]; rfl, by rw [hDq]⟩
  · conv_rhs => rw [← jhas_jmerge]
    by_cases hc : k ∈ sel ∧ truthyOpt (jget (jmerge (bucketOf cfg "mcpServers")
        (bucketOf cfg "disabledMcpServers")) k) = true
    · have hsome : (jget (jmerge (bucketOf cfg "mcpServers")
          (bucketOf cfg "disabledMcpServers")) k).isSome = true := by
        cases hg : jget (jmerge (bucketOf cfg "mcpServers")
            (bucketOf cfg "disabledMcpServers")) k with
        | none => rw [hg] at hc; exact absurd hc.2 (by simp [truthyOpt])
        | some v => rfl
      have hA : jhas (selectFold sel ([], jmerge (bucketOf cfg "mcpServers")
          (bucketOf cfg "disabledMcpServers"))).1 k = true := by
        unfold jhas
        rw [hEq, if_pos hc]
        exact hsome
      rw [hA]
      unfold jhas
      rw [jget_jmerge] at hsome ⊢
      simp [hsome]
    · have hA : jhas (selectFold sel ([], jmerge (bucketOf cfg "mcpServers")
          (bucketOf cfg "disabledMcpServers"))).1 k = false := by
        unfold jhas
        rw [hEq, if_neg hc]
        rfl
      have hB : jhas (selectFold sel ([], jmerge (bucketOf cfg "mcpServers")
          (bucketOf cfg "disabledMcpServers"))).2 k
          = jhas (jmerge (bucketOf cfg "mcpServers")
              (bucketOf cfg "disabledMcpServers")) k := by
        unfold jhas
        rw [hDq, if_neg hc]
      rw [hA, hB]
      simp
  · by_cases hc : k ∈ sel ∧ truthyOpt (jget (jmerge (bucketOf cfg "mcpServers")
        (bucketOf cfg "disabledMcpServers")) k) = true
    · have hsome : (jget (jmerge (bucketOf cfg "mcpServers")
          (bucketOf cfg "disabledMcpServers")) k).isSome = true := by
        cases hg : jget (jmerge (bucketOf cfg "mcpServers")
            (bucketOf cfg "disabledMcpServers")) k with
        | none => rw [hg] at hc; exact absurd hc.2 (by simp [truthyOpt])
        | some v => rfl
      unfold jhas
      rw [hEq, if_pos hc, hsome]
      simp [hc.1, hc.2]
    · unfold jhas
      rw [hEq, if_neg hc]
      have hrhs : (decide (k ∈ sel) && truthyOpt (jget (jmerge
          (bucketOf cfg "mcpServers") (bucketOf cfg "disabledMcpServers")) k))
          = false := by
        rw [not_and_or] at hc
        rcases hc with hc | hc
        · simp [hc]
        · simp only [Bool.not_eq_true] at hc
          simp [hc]
      rw [hrhs]
      rfl

/-- C5 witness: a selected falsy-valued name stays disabled while the
union is preserved, at a concrete configuration. -/
theorem c5_amended_witness :
    (jhas (bucketOf (selectExactlyConfig
        [("mcpServers", JVal.obj [("a", JVal.str "x")]),
         ("disabledMcpServers", JVal.obj [("b", JVal.num 0)])] ["a", "b"])
        "mcpServers") "b"
      || jhas (bucketOf (selectExactlyConfig
        [("mcpServers", JVal.obj [("a", JVal.str "x")]),
         ("disabledMcpServers", JVal.obj [("b", JVal.num 0)])] ["a", "b"])
        "disabledMcpServers") "b")
      = (jhas (bucketOf [("mcpServers", JVal.obj [("a", JVal.str "x")]),
          ("disabledMcpServers", JVal.obj [("b", JVal.num 0)])] "mcpServers") "b"
        || jhas (bucketOf [("mcpServers", JVal.obj [("a", JVal.str "x")]),
          ("disabledMcpServers", JVal.obj [("b", JVal.num 0)])] "disabledMcpServers") "b")
    ∧ jhas (bucketOf (selectExactlyConfig
        [("mcpServers", JVal.obj [("a", JVal.str "x")]),
         ("disabledMcpServers", JVal.obj [("b", JVal.num 0)])] ["a", "b"])
        "mcpServers") "b"
      = (decide ("b" ∈ ["a", "b"]) && truthyOpt (jget (jmerge
          (bucketOf [("mcpServers", JVal.obj [("a", JVal.str "x")]),
            ("disabledMcpServers", JVal.obj [("b", JVal.num 0)])] "mcpServers")
          (bucketOf [("mcpServers", JVal.obj [("a", JVal.str "x")]),
            ("disabledMcpServers", JVal.obj [("b", JVal.num 0)])] "disabledMcpServers"))
          "b")) :=
  ⟨(c5_amended [("mcpServers", JVal.obj [("a", JVal.str "x")]),
      ("disabledMcpServers", JVal.obj [("b", JVal.num 0)])] ["a", "b"] "b" rfl).1,
   (c5_amended [("mcpServers", JVal.obj [("a", JVal.str "x")]),
      ("disabledMcpServers", JVal.obj [("b", JVal.num 0)])] ["a", "b"] "b" rfl).2.1⟩

/-- Full characterisation of `smartLoadPreset` on well-formed
configurations: a name of the merged current map goes to the result's
enabled bucket exactly when the enabled-placement condition holds, to the
disabled bucket otherwise, always keeping the current definition value;
names outside the current map never appear; the report lists the current
names whose merged preset value is not truthy. -/
theorem smartLoadConfig_spec (cur preset : List (String × JVal))
    (hc : bucketsWF cur = true) (n : String) :
    (jget (bucketOf (smartLoadConfig cur preset).1 "mcpServers") n =
      if jhas (jmerge (bucketOf cur "mcpServers") (bucketOf cur "disabledMcpServers")) n = true
          ∧ smartEnabledCond preset
              (jmerge (bucketOf preset "mcpServers") (bucketOf preset "disabledMcpServers")) n
            = true
      then jget (jmerge (bucketOf cur "mcpServers") (bucketOf cur "disabledMcpServers")) n
      else none)
    ∧ (jget (bucketOf (smartLoadConfig cur preset).1 "disabledMcpServers") n =
      if jhas (jmerge (bucketOf cur "mcpServers") (bucketOf cur "disabledMcpServers")) n = true
          ∧ smartEnabledCond preset
              (jmerge (bucketOf preset "mcpServers") (bucketOf preset "disabledMcpServers")) n
            = false
      then jget (jmerge (bucketOf cur "mcpServers") (bucketOf cur "disabledMcpServers")) n
      else none)
    ∧ (smartLoadConfig cur preset).2 =
        ((jmerge (bucketOf cur "mcpServers") (bucketOf cur "disabledMcpServers")).map
          Prod.fst).filter
          (fun k' => !truthyOpt (jget (jmerge (bucketOf preset "mcpServers")
            (bucketOf preset "disabledMcpServers")) k')) := by
  have hc1 : bucketKeyWF cur "mcpServers" = true := by
    have := hc
    unfold bucketsWF at this
    exact (Bool.and_eq_true _ _ |>.mp this).1
  have hc2 : bucketKeyWF cur "disabledMcpServers" = true := by
    have := hc
    unfold bucketsWF at this
    exact (Bool.and_eq_true _ _ |>.mp this).2
  have hnodup : nodupKeysB (jmerge (bucketOf cur "mcpServers")
      (bucketOf cur "disabledMcpServers")) = true :=
    nodupKeysB_jmerge _ _ (nodupKeysB_bucketOf cur "mcpServers" hc1)
      (nodupKeysB_bucketOf cur "disabledMcpServers" hc2)
  obtain ⟨hE, hD, hN⟩ := smartMergeFoldFrom_spec preset
    (jmerge (bucketOf preset "mcpServers") (bucketOf preset "disabledMcpServers"))
    (jmerge (bucketOf cur "mcpServers") (bucketOf cur "disabledMcpServers"))
    [] [] [] hnodup (fun k' _ => ⟨rfl, rfl⟩) n
  have hresE : bucketOf (smartLoadConfig cur preset).1 "mcpServers"
      = (smartMergeFoldFrom preset
          (jmerge (bucketOf preset "mcpServers") (bucketOf preset "disabledMcpServers"))
          ([], [], [])
          (jmerge (bucketOf cur "mcpServers") (bucketOf cur "disabledMcpServers"))).1 := by
    unfold smartLoadConfig smartMergeFold bucketOf
    simp [jget]
  have hresD : bucketOf (smartLoadConfig cur preset).1 "disabledMcpServers"
      = (smartMergeFoldFrom preset
          (jmerge (bucketOf preset "mcpServers") (bucketOf preset "disabledMcpServers"))
          ([], [], [])
          (jmerge (bucketOf cur "mcpServers") (bucketOf cur "disabledMcpServers"))).2.1 := by
    unfold smartLoadConfig smartMergeFold bucketOf
    simp [jget]
  have hresN : (smartLoadConfig cur preset).2
      = (smartMergeFoldFrom preset
          (jmerge (bucketOf preset "mcpServers") (bucketOf preset "disabledMcpServers"))
          ([], [], [])
          (jmerge (bucketOf cur "mcpServers") (bucketOf cur "disabledMcpServers"))).2.2 := by
    unfold smartLoadConfig smartMergeFold
    rfl
  refine ⟨?_, ?_, ?_⟩
  · rw [hresE, hE]
    by_cases hcnd : jhas (jmerge (bucketOf cur "mcpServers")
        (bucketOf cur "disabledMcpServers")) n = true
        ∧ smartEnabledCond preset
            (jmerge (bucketOf preset "mcpServers") (bucketOf preset "disabledMcpServers")) n
          = true
    · rw [if_pos hcnd, if_pos hcnd]
    · rw [if_neg hcnd, if_neg hcnd]
      rfl
  · rw [hresD, hD]
    by_cases hcnd : jhas (jmerge (bucketOf cur "mcpServers")
        (bucketOf cur "disabledMcpServers")) n = true
        ∧ smartEnabledCond preset
            (jmerge (bucketOf preset "mcpServers") (bucketOf preset "disabledMcpServers")) n
          = false
    · rw [if_pos hcnd, if_pos hcnd]
    · rw [if_neg hcnd, if_neg hcnd]
      rfl
  · rw [hresN, hN]
    rfl

/-- C2, counterexample: `a` is in the preset's union (its enabled bucket),
so the claim requires `a` to adopt the preset's enabled placement; but its
preset definition value is the falsy `false`, so `smartLoadPreset`'s
truthiness test treats it as absent: it is forced into disabled and
reported as newly discovered. -/
theorem c2_counterexample :
    jhas (jmerge
        (bucketOf [("mcpServers", JVal.obj [("a", JVal.bool false)]),
          ("disabledMcpServers", JVal.obj [])] "mcpServers")
        (bucketOf [("mcpServers", JVal.obj [("a", JVal.bool false)]),
          ("disabledMcpServers", JVal.obj [])] "disabledMcpServers")) "a" = true
    ∧ jhas (bucketOf (smartLoadConfig
        [("mcpServers", JVal.obj [("a", JVal.str "x")]),
         ("disabledMcpServers", JVal.obj [])]
        [("mcpServers", JVal.obj [("a", JVal.bool false)]),
         ("disabledMcpServers", JVal.obj [])]).1 "mcpServers") "a" = false
    ∧ jget (bucketOf (smartLoadConfig
        [("mcpServers", JVal.obj [("a", JVal.str "x")]),
         ("disabledMcpServers", JVal.obj [])]
        [("mcpServers", JVal.obj [("a", JVal.bool false)]),
         ("disabledMcpServers", JVal.obj [])]).1 "disabledMcpServers") "a"
      = some (JVal.str "x")
    ∧ (smartLoadConfig
        [("mcpServers", JVal.obj [("a", JVal.str "x")]),
         ("disabledMcpServers", JVal.obj [])]
        [("mcpServers", JVal.obj [("a", JVal.bool false)]),
         ("disabledMcpServers", JVal.obj [])]).2 = ["a"] :=
  ⟨rfl, rfl, rfl, rfl⟩

/-- C2 (amended): for well-formed configurations, a name of the current
union whose merged preset value is *truthy* adopts the placement decided
by truthiness of its entry in the preset's enabled bucket, keeping the
current definition value, and is not reported; a name whose merged preset
value is absent **or falsy** is forced into disabled (keeping its value)
and reported as newly discovered; names not in the current union never
appear in the result. -/
theorem c2_amended (cur preset : List (String × JVal))
    (hc : bucketsWF cur = true) (hp : bucketsWF preset = true) (n : String) :
    (jhas (jmerge (bucketOf cur "mcpServers") (bucketOf cur "disabledMcpServers")) n = false →
      jget (bucketOf (smartLoadConfig cur preset).1 "mcpServers") n = none
      ∧ jget (bucketOf (smartLoadConfig cur preset).1 "disabledMcpServers") n = none)
    ∧ (jhas (jmerge (bucketOf cur "mcpServers") (bucketOf cur "disabledMcpServers")) n = true →
       truthyOpt (jget (jmerge (bucketOf preset "mcpServers")
          (bucketOf preset "disabledMcpServers")) n) = true →
       truthyOpt (jget (bucketOf preset "mcpServers") n) = true →
        jget (bucketOf (smartLoadConfig cur preset).1 "mcpServers") n
          = jget (jmerge (bucketOf cur "mcpServers") (bucketOf cur "disabledMcpServers")) n
        ∧ jget (bucketOf (smartLoadConfig cur preset).1 "disabledMcpServers") n = none
        ∧ n ∉ (smartLoadConfig cur preset).2)
    ∧ (jhas (jmerge (bucketOf cur "mcpServers") (bucketOf cur "disabledMcpServers")) n = true →
       truthyOpt (jget (jmerge (bucketOf preset "mcpServers")
          (bucketOf preset "disabledMcpServers")) n) = true →
       truthyOpt (jget (bucketOf preset "mcpServers") n) = false →
        jget (bucketOf (smartLoadConfig cur preset).1 "disabledMcpServers") n
          = jget (jmerge (bucketOf cur "mcpServers") (bucketOf cur "disabledMcpServers")) n
        ∧ jget (bucketOf (smartLoadConfig cur preset).1 "mcpServers") n = none
        ∧ n ∉ (smartLoadConfig cur preset).2)
    ∧ (jhas (jmerge (bucketOf cur "mcpServers") (bucketOf cur "disabledMcpServers")) n = true →
       truthyOpt (jget (jmerge (bucketOf preset "mcpServers")
          (bucketOf preset "disabledMcpServers")) n) = false →
        jget (bucketOf (smartLoadConfig cur preset).1 "disabledMcpServers") n
          = jget (jmerge (bucketOf cur "mcpServers") (bucketOf cur "disabledMcpServers")) n
        ∧ jget (bucketOf (smartLoadConfig cur preset).1 "mcpServers") n = none
        ∧ n ∈ (smartLoadConfig cur preset).2) := by
  obtain ⟨hE, hD, hN⟩ := smartLoadConfig_spec cur preset hc n
  have hp1 : bucketKeyWF preset "mcpServers" = true := by
    have := hp
    unfold bucketsWF at this
    exact (Bool.and_eq_true _ _ |>.mp this).1
  have hplace : smartPlaceEnabled preset n
      = truthyOpt (jget (bucketOf preset "mcpServers") n) :=
    smartPlaceEnabled_eq_of_wf preset hp1 n
  refine ⟨?_, ?_, ?_, ?_⟩
  · intro hhas
    constructor
    · rw [hE, if_neg (by simp [hhas])]
    · rw [hD, if_neg (by simp [hhas])]
  · intro hhas ht hpe
    have hcond : smartEnabledCond preset
        (jmerge (bucketOf preset "mcpServers") (bucketOf preset "disabledMcpServers")) n
        = true := by
      unfold smartEnabledCond
      rw [ht, hplace, hpe]
      rfl
    refine ⟨by rw [hE, if_pos ⟨hhas, hcond⟩], by rw [hD, if_neg (by simp [hcond])], ?_⟩
    intro hmem
    rw [hN, List.mem_filter] at hmem
    rw [ht] at hmem
    exact Bool.noConfusion hmem.2
  · intro hhas ht hpe
    have hcond : smartEnabledCond preset
        (jmerge (bucketOf preset "mcpServers") (bucketOf preset "disabledMcpServers")) n
        = false := by
      unfold smartEnabledCond
      rw [ht, hplace, hpe]
      rfl
    refine ⟨by rw [hD, if_pos ⟨hhas, hcond⟩], by rw [hE, if_neg (by simp [hcond])], ?_⟩
    intro hmem
    rw [hN, List.mem_filter] at hmem
    rw [ht] at hmem
    exact Bool.noConfusion hmem.2
  · intro hhas ht
    have hcond : smartEnabledCond preset
        (jmerge (bucketOf preset "mcpServers") (bucketOf preset "disabledMcpServers")) n
        = false := by
      unfold smartEnabledCond
      rw [ht]
      rfl
    refine ⟨by rw [hD, if_pos ⟨hhas, hcond⟩], by rw [hE, if_neg (by simp [hcond])], ?_⟩
    rw [hN, List.mem_filter]
    exact ⟨(jhas_iff_mem_keys _ n).mp hhas, by rw [ht]; rfl⟩

/-- C2 witness: with a truthy preset entry in the enabled bucket, the name
stays enabled with the current definition value and is not reported. -/
theorem c2_amended_witness :
    jget (bucketOf (smartLoadConfig
        [("mcpServers", JVal.obj [("a", JVal.str "x")]),
         ("disabledMcpServers", JVal.obj [])]
        [("mcpServers", JVal.obj [("a", JVal.bool true)]),
         ("disabledMcpServers", JVal.obj [])]).1 "mcpServers") "a"
      = jget (jmerge
          (bucketOf [("mcpServers", JVal.obj [("a", JVal.str "x")]),
            ("disabledMcpServers", JVal.obj [])] "mcpServers")
          (bucketOf [("mcpServers", JVal.obj [("a", JVal.str "x")]),
            ("disabledMcpServers", JVal.obj [])] "disabledMcpServers")) "a"
    ∧ jget (bucketOf (smartLoadConfig
        [("mcpServers", JVal.obj [("a", JVal.str "x")]),
         ("disabledMcpServers", JVal.obj [])]
        [("mcpServers", JVal.obj [("a", JVal.bool true)]),
         ("disabledMcpServers", JVal.obj [])]).1 "disabledMcpServers") "a" = none
    ∧ "a" ∉ (smartLoadConfig
        [("mcpServers", JVal.obj [("a", JVal.str "x")]),
         ("disabledMcpServers", JVal.obj [])]
        [("mcpServers", JVal.obj [("a", JVal.bool true)]),
         ("disabledMcpServers", JVal.obj [])]).2 :=
  (c2_amended [("mcpServers", JVal.obj [("a", JVal.str "x")]),
      ("disabledMcpServers", JVal.obj [])]
    [("mcpServers", JVal.obj [("a", JVal.bool true)]),
      ("disabledMcpServers", JVal.obj [])] rfl rfl "a").2.1 rfl rfl rfl

/-- C9: `smartLoadPreset` decides placement by JS truthiness — a name of
the current union whose merged preset definition value is a falsy JSON
value is treated as absent from the preset: it is forced into the disabled
bucket (keeping the current definition) and reported as newly discovered,
even when the name is present in the preset's enabled bucket. -/
theorem c9_smartMerge_truthiness (cur preset : List (String × JVal)) (n : String)
    (pv : JVal)
    (hc : bucketsWF cur = true)
    (hcur : jhas (jmerge (bucketOf cur "mcpServers")
        (bucketOf cur "disabledMcpServers")) n = true)
    (hpv : jget (jmerge (bucketOf preset "mcpServers")
        (bucketOf preset "disabledMcpServers")) n = some pv)
    (hfalsy : jvTruthy pv = false)
    (hinEnabled : jhas (bucketOf preset "mcpServers") n = true) :
    jget (bucketOf (smartLoadConfig cur preset).1 "disabledMcpServers") n
      = jget (jmerge (bucketOf cur "mcpServers") (bucketOf cur "disabledMcpServers")) n
    ∧ jget (bucketOf (smartLoadConfig cur preset).1 "mcpServers") n = none
    ∧ n ∈ (smartLoadConfig cur preset).2 := by
  obtain ⟨hE, hD, hN⟩ := smartLoadConfig_spec cur preset hc n
  have ht : truthyOpt (jget (jmerge (bucketOf preset "mcpServers")
      (bucketOf preset "disabledMcpServers")) n) = false := by
    rw [hpv]
    exact hfalsy
  have hcond : smartEnabledCond preset
      (jmerge (bucketOf preset "mcpServers") (bucketOf preset "disabledMcpServers")) n
      = false := by
    unfold smartEnabledCond
    rw [ht]
    rfl
  refine ⟨by rw [hD, if_pos ⟨hcur, hcond⟩], by rw [hE, if_neg (by simp [hcond])], ?_⟩
  rw [hN, List.mem_filter]
  exact ⟨(jhas_iff_mem_keys _ n).mp hcur, by rw [ht]; rfl⟩

/-- C9 witness: the truthiness behaviour at a concrete pair of
configurations — the preset lists `a` as enabled with value `false`, and
the smart merge disables `a` and reports it as new. -/
theorem c9_smartMerge_truthiness_witness :
    jget (bucketOf (smartLoadConfig
        [("mcpServers", JVal.obj [("a", JVal.str "x")]),
         ("disabledMcpServers", JVal.obj [])]
        [("mcpServers", JVal.obj [("a", JVal.bool false)]),
         ("disabledMcpServers", JVal.obj [])]).1 "disabledMcpServers") "a"
      = jget (jmerge
          (bucketOf [("mcpServers", JVal.obj [("a", JVal.str "x")]),
            ("disabledMcpServers", JVal.obj [])] "mcpServers")
          (bucketOf [("mcpServers", JVal.obj [("a", JVal.str "x")]),
            ("disabledMcpServers", JVal.obj [])] "disabledMcpServers")) "a"
    ∧ jget (bucketOf (smartLoadConfig
        [("mcpServers", JVal.obj [("a", JVal.str "x")]),
         ("disabledMcpServers", JVal.obj [])]
        [("mcpServers", JVal.obj [("a", JVal.bool false)]),
         ("disabledMcpServers", JVal.obj [])]).1 "mcpServers") "a" = none
    ∧ "a" ∈ (smartLoadConfig
        [("mcpServers", JVal.obj [("a", JVal.str "x")]),
         ("disabledMcpServers", JVal.obj [])]
        [("mcpServers", JVal.obj [("a", JVal.bool false)]),
         ("disabledMcpServers", JVal.obj [])]).2 :=
  c9_smartMerge_truthiness [("mcpServers", JVal.obj [("a", JVal.str "x")]),
      ("disabledMcpServers", JVal.obj [])]
    [("mcpServers", JVal.obj [("a", JVal.bool false)]),
      ("disabledMcpServers", JVal.obj [])] "a" (JVal.bool false)
    rfl rfl rfl rfl rfl

theorem jget_eq_none_of_jhas_false (o : List (String × JVal)) (k : String)
    (h : jhas o k = false) : jget o k = none := by
  unfold jhas at h
  cases hg : jget o k with
  | none => rfl
  | some v => rw [hg] at h; exact Bool.noConfusion h

/-- One toggle of an enabled entry, with the disabled bucket present as an
object: the entry moves to the end of the disabled bucket and is deleted
from the enabled bucket. -/
theorem toggleConfig_disable_present (cfg E D : List (String × JVal)) (n : String)
    (v : JVal)
    (hmk : jget cfg "mcpServers" = some (.obj E))
    (hdk : jget cfg "disabledMcpServers" = some (.obj D))
    (hv : jget E n = some v) :
    toggleConfig cfg n
      = some (jset (jset cfg "disabledMcpServers" (.obj (jset D n v)))
          "mcpServers" (.obj (jdel E n))) := by
  have hbE : bucketOf cfg "mcpServers" = E := by
    unfold bucketOf; rw [hmk]
  have hbD : bucketOf cfg "disabledMcpServers" = D := by
    unfold bucketOf; rw [hdk]
  have hdt : jtruthyAt cfg "disabledMcpServers" = true := by
    rw [jtruthyAt, hdk]; rfl
  have he : jhas (bucketOf cfg "mcpServers") n = true := by
    rw [hbE, jhas, hv]; rfl
  unfold toggleConfig
  dsimp only
  rw [if_pos hdt, if_pos he]
  rw [bucketOf_jset_ne _ "disabledMcpServers" "mcpServers" _ (by decide)]
  rw [hbE, hbD, hv]
  rfl

/-- One toggle of an enabled entry when the `disabledMcpServers` key is
absent: the code first creates an empty disabled bucket, then moves the
entry into it. -/
theorem toggleConfig_disable_absent (cfg E : List (String × JVal)) (n : String)
    (v : JVal)
    (hmk : jget cfg "mcpServers" = some (.obj E))
    (hdk : jget cfg "disabledMcpServers" = none)
    (hv : jget E n = some v) :
    toggleConfig cfg n
      = some (jset (jset (jset cfg "disabledMcpServers" (.obj []))
          "disabledMcpServers" (.obj (jset [] n v)))
          "mcpServers" (.obj (jdel E n))) := by
  have hbE : bucketOf cfg "mcpServers" = E := by
    unfold bucketOf; rw [hmk]
  have hdt : jtruthyAt cfg "disabledMcpServers" = false := by
    rw [jtruthyAt, hdk]; rfl
  have he : jhas (bucketOf cfg "mcpServers") n = true := by
    rw [hbE, jhas, hv]; rfl
  unfold toggleConfig
  dsimp only
  rw [if_pos he]
  rw [if_neg (show ¬ jtruthyAt cfg "disabledMcpServers" = true by
    rw [hdt]; exact Bool.false_ne_true)]
  rw [bucketOf_jset_obj_self]
  rw [bucketOf_jset_ne _ "disabledMcpServers" "mcpServers" _ (by decide)]
  rw [bucketOf_jset_ne _ "disabledMcpServers" "mcpServers" _ (by decide)]
  rw [hbE, hv]
  rfl

/-- One toggle of a disabled entry, with both bucket keys present as
objects: the entry moves to the end of the enabled bucket and is deleted
from the disabled bucket. -/
theorem toggleConfig_enable (cfg E D : List (String × JVal)) (n : String)
    (v : JVal)
    (hmk : jget cfg "mcpServers" = some (.obj E))
    (hdk : jget cfg "disabledMcpServers" = some (.obj D))
    (hne : jhas E n = false)
    (hv : jget D n = some v) :
    toggleConfig cfg n
      = some (jset (jset cfg "mcpServers" (.obj (jset E n v)))
          "disabledMcpServers" (.obj (jdel D n))) := by
  have hbE : bucketOf cfg "mcpServers" = E := by
    unfold bucketOf; rw [hmk]
  have hbD : bucketOf cfg "disabledMcpServers" = D := by
    unfold bucketOf; rw [hdk]
  have hdt : jtruthyAt cfg "disabledMcpServers" = true := by
    rw [jtruthyAt, hdk]; rfl
  have hd : jhas (bucketOf cfg "disabledMcpServers") n = true := by
    rw [hbD, jhas, hv]; rfl
  unfold toggleConfig
  dsimp only
  rw [if_pos hdt]
  rw [if_neg (by rw [hbE, hne]; exact Bool.false_ne_true), if_pos hd]
  rw [hmk]
  dsimp only
  rw [bucketOf_jset_ne _ "mcpServers" "disabledMcpServers" _ (by decide)]
  rw [hbD, hv]
  rfl

/-- C4, counterexample: for a configuration whose `disabledMcpServers`
holds the entry but whose `mcpServers` key is absent, the very first
toggle throws a TypeError (`config.mcpServers[name] = …` with
`config.mcpServers` undefined), so toggling twice does not yield a
configuration at all. -/
theorem c4_counterexample :
    jhas (bucketOf [("disabledMcpServers", JVal.obj [("a", JVal.str "v")])]
        "disabledMcpServers") "a" = true
    ∧ toggleConfig [("disabledMcpServers", JVal.obj [("a", JVal.str "v")])] "a"
      = none :=
  ⟨rfl, rfl⟩

/-- C4 (amended): on a well-formed configuration in which the name sits in
exactly one bucket and the `mcpServers` key is present whenever the name
is disabled (otherwise the first toggle throws a TypeError), toggling the
name twice succeeds and returns it to its original bucket with its
definition value unchanged. -/
theorem c4_amended (cfg : List (String × JVal)) (n : String)
    (hWF : bucketsWF cfg = true)
    (hdisj : ¬(jhas (bucketOf cfg "mcpServers") n = true
        ∧ jhas (bucketOf cfg "disabledMcpServers") n = true))
    (hknown : jhas (bucketOf cfg "mcpServers") n = true
        ∨ jhas (bucketOf cfg "disabledMcpServers") n = true)
    (hsafe : jhas (bucketOf cfg "disabledMcpServers") n = true →
        (jget cfg "mcpServers").isSome = true) :
    ((toggleConfig cfg n).bind (fun c1 => toggleConfig c1 n)).elim False
      (fun c2 =>
        jget (bucketOf c2 "mcpServers") n = jget (bucketOf cfg "mcpServers") n
        ∧ jget (bucketOf c2 "disabledMcpServers") n
          = jget (bucketOf cfg "disabledMcpServers") n) := by
  have hw1 : bucketKeyWF cfg "mcpServers" = true := by
    have := hWF
    unfold bucketsWF at this
    exact (Bool.and_eq_true _ _ |>.mp this).1
  have hw2 : bucketKeyWF cfg "disabledMcpServers" = true := by
    have := hWF
    unfold bucketsWF at this
    exact (Bool.and_eq_true _ _ |>.mp this).2
  rcases hknown with hE | hD
  · -- the entry starts enabled
    have hmk : jget cfg "mcpServers" = some (.obj (bucketOf cfg "mcpServers")) := by
      rcases bucketKeyWF_cases cfg "mcpServers" hw1 with ⟨_, hb⟩ | ⟨hg, _⟩
      · rw [hb] at hE
        exact absurd hE (by simp [jhas, jget])
      · exact hg
    obtain ⟨v, hv⟩ : ∃ v, jget (bucketOf cfg "mcpServers") n = some v := by
      unfold jhas at hE
      exact Option.isSome_iff_exists.mp hE
    have hDn : jhas (bucketOf cfg "disabledMcpServers") n = false := by
      cases hdn : jhas (bucketOf cfg "disabledMcpServers") n with
      | false => rfl
      | true => exact absurd ⟨hE, hdn⟩ hdisj
    rcases bucketKeyWF_cases cfg "disabledMcpServers" hw2 with ⟨hdk, hbD⟩ | ⟨hdk, _⟩
    · -- disabled bucket absent
      rw [toggleConfig_disable_absent cfg (bucketOf cfg "mcpServers") n v hmk hdk hv]
      set c1 := jset (jset (jset cfg "disabledMcpServers" (JVal.obj []))
          "disabledMcpServers" (JVal.obj (jset [] n v)))
          "mcpServers" (JVal.obj (jdel (bucketOf cfg "mcpServers") n)) with hc1
      have hc1mk : jget c1 "mcpServers"
          = some (.obj (jdel (bucketOf cfg "mcpServers") n)) := by
        rw [hc1]; exact jget_jset_self _ _ _
      have hc1dk : jget c1 "disabledMcpServers" = some (.obj (jset [] n v)) := by
        rw [hc1, jget_jset_ne _ _ _ _ (by decide)]
        exact jget_jset_self _ _ _
      have h2 := toggleConfig_enable c1 (jdel (bucketOf cfg "mcpServers") n)
        (jset [] n v) n v hc1mk hc1dk
        (by rw [jhas, jget_jdel_self]; rfl)
        (jget_jset_self _ _ _)
      dsimp only [Option.bind]
      rw [h2]
      dsimp only [Option.elim]
      constructor
      · have hb : bucketOf (jset (jset c1 "mcpServers"
            (JVal.obj (jset (jdel (bucketOf cfg "mcpServers") n) n v)))
            "disabledMcpServers" (JVal.obj (jdel (jset [] n v) n))) "mcpServers"
            = jset (jdel (bucketOf cfg "mcpServers") n) n v := by
          unfold bucketOf
          rw [jget_jset_ne _ _ _ _ (by decide), jget_jset_self]
        rw [hb, jget_jset_self, hv]
      · have hb : bucketOf (jset (jset c1 "mcpServers"
            (JVal.obj (jset (jdel (bucketOf cfg "mcpServers") n) n v)))
            "disabledMcpServers" (JVal.obj (jdel (jset [] n v) n)))
            "disabledMcpServers"
            = jdel (jset [] n v) n := by
          unfold bucketOf
          rw [jget_jset_self]
        rw [hb, jget_jdel_self, hbD]
        rfl
    · -- disabled bucket present
      rw [toggleConfig_disable_present cfg (bucketOf cfg "mcpServers")
        (bucketOf cfg "disabledMcpServers") n v hmk hdk hv]
      set c1 := jset (jset cfg "disabledMcpServers"
          (JVal.obj (jset (bucketOf cfg "disabledMcpServers") n v)))
          "mcpServers" (JVal.obj (jdel (bucketOf cfg "mcpServers") n)) with hc1
      have hc1mk : jget c1 "mcpServers"
          = some (.obj (jdel (bucketOf cfg "mcpServers") n)) := by
        rw [hc1]; exact jget_jset_self _ _ _
      have hc1dk : jget c1 "disabledMcpServers"
          = some (.obj (jset (bucketOf cfg "disabledMcpServers") n v)) := by
        rw [hc1, jget_jset_ne _ _ _ _ (by decide)]
        exact jget_jset_self _ _ _
      have h2 := toggleConfig_enable c1 (jdel (bucketOf cfg "mcpServers") n)
        (jset (bucketOf cfg "disabledMcpServers") n v) n v hc1mk hc1dk
        (by rw [jhas, jget_jdel_self]; rfl)
        (jget_jset_self _ _ _)
      dsimp only [Option.bind]
      rw [h2]
      dsimp only [Option.elim]
      constructor
      · have hb : bucketOf (jset (jset c1 "mcpServers"
            (JVal.obj (jset (jdel (bucketOf cfg "mcpServers") n) n v)))
            "disabledMcpServers"
            (JVal.obj (jdel (jset (bucketOf cfg "disabledMcpServers") n v) n)))
            "mcpServers"
            = jset (jdel (bucketOf cfg "mcpServers") n) n v := by
          unfold bucketOf
          rw [jget_jset_ne _ _ _ _ (by decide), jget_jset_self]
        rw [hb, jget_jset_self, hv]
      · have hb : bucketOf (jset (jset c1 "mcpServers"
            (JVal.obj (jset (jdel (bucketOf cfg "mcpServers") n) n v)))
            "disabledMcpServers"
            (JVal.obj (jdel (jset (bucketOf cfg "disabledMcpServers") n v) n)))
            "disabledMcpServers"
            = jdel (jset (bucketOf cfg "disabledMcpServers") n v) n := by
          unfold bucketOf
          rw [jget_jset_self]
        rw [hb, jget_jdel_self]
        exact (jget_eq_none_of_jhas_false _ _ hDn).symm
  · -- the entry starts disabled
    have hEn : jhas (bucketOf cfg "mcpServers") n = false := by
      cases hen : jhas (bucketOf cfg "mcpServers") n with
      | false => rfl
      | true => exact absurd ⟨hen, hD⟩ hdisj
    have hdk : jget cfg "disabledMcpServers"
        = some (.obj (bucketOf cfg "disabledMcpServers")) := by
      rcases bucketKeyWF_cases cfg "disabledMcpServers" hw2 with ⟨_, hb⟩ | ⟨hg, _⟩
      · rw [hb] at hD
        exact absurd hD (by simp [jhas, jget])
      · exact hg
    have hmk : jget cfg "mcpServers" = some (.obj (bucketOf cfg "mcpServers")) := by
      have hmkSome := hsafe hD
      rcases bucketKeyWF_cases cfg "mcpServers" hw1 with ⟨hg, _⟩ | ⟨hg, _⟩
      · rw [hg] at hmkSome
        exact Bool.noConfusion hmkSome
      · exact hg
    obtain ⟨v, hv⟩ : ∃ v, jget (bucketOf cfg "disabledMcpServers") n = some v := by
      unfold jhas at hD
      exact Option.isSome_iff_exists.mp hD
    rw [toggleConfig_enable cfg (bucketOf cfg "mcpServers")
      (bucketOf cfg "disabledMcpServers") n v hmk hdk hEn hv]
    set c1 := jset (jset cfg "mcpServers"
        (JVal.obj (jset (bucketOf cfg "mcpServers") n v)))
        "disabledMcpServers" (JVal.obj (jdel (bucketOf cfg "disabledMcpServers") n))
      with hc1
    have hc1mk : jget c1 "mcpServers"
        = some (.obj (jset (bucketOf cfg "mcpServers") n v)) := by
      rw [hc1, jget_jset_ne _ _ _ _ (by decide)]
      exact jget_jset_self _ _ _
    have hc1dk : jget c1 "disabledMcpServers"
        = some (.obj (jdel (bucketOf cfg "disabledMcpServers") n)) := by
      rw [hc1]; exact jget_jset_self _ _ _
    have h2 := toggleConfig_disable_present c1
      (jset (bucketOf cfg "mcpServers") n v)
      (jdel (bucketOf cfg "disabledMcpServers") n) n v hc1mk hc1dk
      (jget_jset_self _ _ _)
    dsimp only [Option.bind]
    rw [h2]
    dsimp only [Option.elim]
    constructor
    · have hb : bucketOf (jset (jset c1 "disabledMcpServers"
          (JVal.obj (jset (jdel (bucketOf cfg "disabledMcpServers") n) n v)))
          "mcpServers"
          (JVal.obj (jdel (jset (bucketOf cfg "mcpServers") n v) n)))
          "mcpServers"
          = jdel (jset (bucketOf cfg "mcpServers") n v) n := by
        unfold bucketOf
        rw [jget_jset_self]
      rw [hb, jget_jdel_self]
      exact (jget_eq_none_of_jhas_false _ _ hEn).symm
    · have hb : bucketOf (jset (jset c1 "disabledMcpServers"
          (JVal.obj (jset (jdel (bucketOf cfg "disabledMcpServers") n) n v)))
          "mcpServers"
          (JVal.obj (jdel (jset (bucketOf cfg "mcpServers") n v) n)))
          "disabledMcpServers"
          = jset (jdel (bucketOf cfg "disabledMcpServers") n) n v := by
        unfold bucketOf
        rw [jget_jset_ne _ _ _ _ (by decide), jget_jset_self]
      rw [hb, jget_jset_self, hv]

/-- C4 witness: the double-toggle round trip at a concrete configuration
with `a` enabled. -/
theorem c4_amended_witness :
    ((toggleConfig [("mcpServers", JVal.obj [("a", JVal.str "x")]),
        ("disabledMcpServers", JVal.obj [])] "a").bind
      (fun c1 => toggleConfig c1 "a")).elim False
      (fun c2 =>
        jget (bucketOf c2 "mcpServers") "a"
          = jget (bucketOf [("mcpServers", JVal.obj [("a", JVal.str "x")]),
              ("disabledMcpServers", JVal.obj [])] "mcpServers") "a"
        ∧ jget (bucketOf c2 "disabledMcpServers") "a"
          = jget (bucketOf [("mcpServers", JVal.obj [("a", JVal.str "x")]),
              ("disabledMcpServers", JVal.obj [])] "disabledMcpServers") "a") :=
  c4_amended [("mcpServers", JVal.obj [("a", JVal.str "x")]),
      ("disabledMcpServers", JVal.obj [])] "a" rfl
    (by decide) (Or.inl rfl) (fun _ => rfl)

/-! ## Lexicographic order facts for backup identifiers -/

theorem charLtB_irrefl (c : Char) : charLtB c c = false := by
  simp [charLtB]

theorem lexLeB_total (a b : List Char) : lexLeB a b = true ∨ lexLeB b a = true := by
  induction a generalizing b with
  | nil => exact Or.inl rfl
  | cons c cs ih =>
      cases b with
      | nil => exact Or.inr rfl
      | cons d ds =>
          by_cases h1 : c < d
          · exact Or.inl (by simp [lexLeB, charLtB, h1])
          · by_cases h2 : d < c
            · exact Or.inr (by simp [lexLeB, charLtB, h2])
            · have hcd : c = d := le_antisymm (not_lt.mp h2) (not_lt.mp h1)
              subst hcd
              rcases ih ds with h | h
              · exact Or.inl (by simp [lexLeB, charLtB, lt_irrefl, h])
              · exact Or.inr (by simp [lexLeB, charLtB, lt_irrefl, h])

theorem lexLeB_trans : ∀ a b c : List Char, lexLeB a b = true → lexLeB b c = true →
    lexLeB a c = true
  | [], _, _, _, _ => rfl
  | _ :: _, [], _, hab, _ => by simp [lexLeB] at hab
  | _ :: _, _ :: _, [], _, hbc => by simp [lexLeB] at hbc
  | x :: xs, y :: ys, z :: zs, hab, hbc => by
      by_cases hxy : x < y
      · by_cases hyz : y < z
        · have hxz : x < z := lt_trans hxy hyz
          simp [lexLeB, charLtB, hxz]
        · by_cases hzy : z < y
          · exact absurd hbc (by simp [lexLeB, charLtB, hyz, hzy])
          · have hyz' : y = z := le_antisymm (not_lt.mp hzy) (not_lt.mp hyz)
            subst hyz'
            simp [lexLeB, charLtB, hxy]
      · by_cases hyx : y < x
        · exact absurd hab (by simp [lexLeB, charLtB, hxy, hyx])
        · have hxy' : x = y := le_antisymm (not_lt.mp hyx) (not_lt.mp hxy)
          subst hxy'
          have hab' : lexLeB xs ys = true := by
            simpa [lexLeB, charLtB, lt_irrefl] using hab
          by_cases hyz : x < z
          · simp [lexLeB, charLtB, hyz]
          · by_cases hzy : z < x
            · exact absurd hbc (by simp [lexLeB, charLtB, hyz, hzy])
            · have hyz' : x = z := le_antisymm (not_lt.mp hzy) (not_lt.mp hyz)
              subst hyz'
              have hbc' : lexLeB ys zs = true := by
                simpa [lexLeB, charLtB, lt_irrefl] using hbc
              simp [lexLeB, charLtB, lt_irrefl,
                lexLeB_trans xs ys zs hab' hbc']

theorem lexLeB_antisymm : ∀ a b : List Char, lexLeB a b = true → lexLeB b a = true →
    a = b
  | [], [], _, _ => rfl
  | [], _ :: _, _, hba => by simp [lexLeB] at hba
  | _ :: _, [], hab, _ => by simp [lexLeB] at hab
  | x :: xs, y :: ys, hab, hba => by
      by_cases hxy : x < y
      · exact absurd hba (by simp [lexLeB, charLtB, hxy, asymm hxy])
      · by_cases hyx : y < x
        · exact absurd hab (by simp [lexLeB, charLtB, hxy, hyx])
        · have hxy' : x = y := le_antisymm (not_lt.mp hyx) (not_lt.mp hxy)
          subst hxy'
          have hab' : lexLeB xs ys = true := by
            simpa [lexLeB, charLtB, lt_irrefl] using hab
          have hba' : lexLeB ys xs = true := by
            simpa [lexLeB, charLtB, lt_irrefl] using hba
          rw [lexLeB_antisymm xs ys hab' hba']

theorem lexLtB_le : ∀ a b : List Char, lexLtB a b = true → lexLeB a b = true
  | [], _, _ => rfl
  | _ :: _, [], h => by simp [lexLtB] at h
  | x :: xs, y :: ys, h => by
      by_cases hxy : x < y
      · simp [lexLeB, charLtB, hxy]
      · by_cases hyx : y < x
        · exact absurd h (by simp [lexLtB, charLtB, hxy, hyx])
        · have h' : lexLtB xs ys = true := by
            simpa [lexLtB, charLtB, hxy, hyx] using h
          simp [lexLeB, charLtB, hxy, hyx, lexLtB_le xs ys h']

theorem lexLtB_cons_same (c : Char) (x y : List Char) :
    lexLtB (c :: x) (c :: y) = lexLtB x y := by
  simp [lexLtB, charLtB, lt_irrefl]

theorem lexLtB_append_left : ∀ (p x y : List Char),
    lexLtB (p ++ x) (p ++ y) = lexLtB x y
  | [], _, _ => rfl
  | c :: cs, x, y => by
      rw [List.cons_append, List.cons_append, lexLtB_cons_same,
        lexLtB_append_left cs x y]

theorem lexLtB_append_of_lt : ∀ (f1 f2 u v : List Char),
    f1.length = f2.length → lexLtB f1 f2 = true →
    lexLtB (f1 ++ u) (f2 ++ v) = true
  | [], [], _, _, _, hlt => by simp [lexLtB] at hlt
  | [], _ :: _, _, _, hlen, _ => by simp at hlen
  | _ :: _, [], _, _, hlen, _ => by simp at hlen
  | x :: xs, y :: ys, u, v, hlen, hlt => by
      by_cases hxy : x < y
      · simp [lexLtB, charLtB, hxy]
      · by_cases hyx : y < x
        · exact absurd hlt (by simp [lexLtB, charLtB, hxy, hyx])
        · have hxy' : x = y := le_antisymm (not_lt.mp hyx) (not_lt.mp hxy)
          subst hxy'
          have hlt' : lexLtB xs ys = true := by
            simpa [lexLtB, charLtB, lt_irrefl] using hlt
          have hlen' : xs.length = ys.length := by simpa using hlen
          simp only [List.cons_append, lexLtB_cons_same]
          exact lexLtB_append_of_lt xs ys u v hlen' hlt'

instance : IsTotal (List Char) lexLe :=
  ⟨fun a b => lexLeB_total a b⟩

instance : IsTrans (List Char) lexLe :=
  ⟨fun a b c => lexLeB_trans a b c⟩

instance : IsAntisymm (List Char) lexLe :=
  ⟨fun a b => lexLeB_antisymm a b⟩

theorem digitChar_mod (n : Nat) : digitChar n = digitChar (n % 10) := by
  unfold digitChar
  rw [show n % 10 % 10 = n % 10 by omega]

theorem digitChar_congr (a b : Nat) (h : a % 10 = b % 10) :
    digitChar a = digitChar b := by
  unfold digitChar
  rw [h]

theorem digitChar_lt (a b : Nat) (h : a % 10 < b % 10) :
    charLtB (digitChar a) (digitChar b) = true := by
  have key : ∀ x, x < 10 → ∀ y, y < 10 → x < y →
      charLtB (digitChar x) (digitChar y) = true := by decide
  rw [digitChar_mod a, digitChar_mod b]
  exact key (a % 10) (by omega) (b % 10) (by omega) h

theorem pad2_lt (v1 v2 : Nat) (h : v1 < v2) (hb : v2 < 100) :
    lexLtB (pad2 v1) (pad2 v2) = true := by
  by_cases h1 : v1 / 10 = v2 / 10
  · have ho : v1 % 10 < v2 % 10 := by omega
    rw [pad2, pad2, h1, lexLtB_cons_same]
    simp [lexLtB, digitChar_lt _ _ ho]
  · have ho : v1 / 10 % 10 < v2 / 10 % 10 := by omega
    simp [pad2, lexLtB, digitChar_lt _ _ ho]

theorem pad3_lt (v1 v2 : Nat) (h : v1 < v2) (hb : v2 < 1000) :
    lexLtB (pad3 v1) (pad3 v2) = true := by
  by_cases h2 : v1 / 100 = v2 / 100
  · by_cases h1 : v1 / 10 = v2 / 10
    · have ho : v1 % 10 < v2 % 10 := by omega
      rw [pad3, pad3, h2, h1, lexLtB_cons_same, lexLtB_cons_same]
      simp [lexLtB, digitChar_lt _ _ ho]
    · have e1 : v1 / 10 / 10 = v1 / 100 := by
        rw [Nat.div_div_eq_div_mul]
      have e2 : v2 / 10 / 10 = v2 / 100 := by
        rw [Nat.div_div_eq_div_mul]
      have ho : v1 / 10 % 10 < v2 / 10 % 10 := by omega
      rw [pad3, pad3, h2, lexLtB_cons_same]
      simp [lexLtB, digitChar_lt _ _ ho]
  · have ho : v1 / 100 % 10 < v2 / 100 % 10 := by omega
    simp [pad3, lexLtB, digitChar_lt _ _ ho]

theorem pad4_lt (v1 v2 : Nat) (h : v1 < v2) (hb : v2 < 10000) :
    lexLtB (pad4 v1) (pad4 v2) = true := by
  by_cases h3 : v1 / 1000 = v2 / 1000
  · by_cases h2 : v1 / 100 = v2 / 100
    · by_cases h1 : v1 / 10 = v2 / 10
      · have ho : v1 % 10 < v2 % 10 := by omega
        rw [pad4, pad4, h3, h2, h1, lexLtB_cons_same, lexLtB_cons_same,
          lexLtB_cons_same]
        simp [lexLtB, digitChar_lt _ _ ho]
      · have e1 : v1 / 10 / 10 = v1 / 100 := by
          rw [Nat.div_div_eq_div_mul]
        have e2 : v2 / 10 / 10 = v2 / 100 := by
          rw [Nat.div_div_eq_div_mul]
        have ho : v1 / 10 % 10 < v2 / 10 % 10 := by omega
        rw [pad4, pad4, h3, h2, lexLtB_cons_same, lexLtB_cons_same]
        simp [lexLtB, digitChar_lt _ _ ho]
    · have e1 : v1 / 100 / 10 = v1 / 1000 := by
        rw [Nat.div_div_eq_div_mul]
      have e2 : v2 / 100 / 10 = v2 / 1000 := by
        rw [Nat.div_div_eq_div_mul]
      have ho : v1 / 100 % 10 < v2 / 100 % 10 := by omega
      rw [pad4, pad4, h3, lexLtB_cons_same]
      simp [lexLtB, digitChar_lt _ _ ho]
  · have ho : v1 / 1000 % 10 < v2 / 1000 % 10 := by omega
    simp [pad4, lexLtB, digitChar_lt _ _ ho]

theorem sanitizeChar_digitChar (n : Nat) : sanitizeChar (digitChar n) = digitChar n := by
  have hn : n % 10 < 10 := by omega
  unfold digitChar
  set m := n % 10 with hm
  interval_cases m <;> rfl

/-- Sanitising the ISO timestamp turns its colons and the period into
hyphens and leaves all other characters alone. -/
theorem sanitize_isoChars (t : TS) :
    (isoChars t).map sanitizeChar
      = pad4 t.year ++ '-' :: pad2 t.month ++ '-' :: pad2 t.day ++ 'T' :: pad2 t.hour
        ++ '-' :: pad2 t.minute ++ '-' :: pad2 t.second ++ '-' :: pad3 t.ms ++ ['Z'] := by
  simp [isoChars, pad2, pad3, pad4, List.map_append, sanitizeChar_digitChar,
    show sanitizeChar '-' = '-' from rfl, show sanitizeChar 'T' = 'T' from rfl,
    show sanitizeChar ':' = '-' from rfl, show sanitizeChar '.' = '-' from rfl,
    show sanitizeChar 'Z' = 'Z' from rfl]

/-- The timestamp-derived backup identifiers order lexicographically
exactly as their creation instants order chronologically: the sanitised
ISO timestamp is a fixed-width decimal rendering. -/
theorem backupFileName_lt (t1 t2 : TS) (hw1 : tsWF t1 = true) (hw2 : tsWF t2 = true)
    (hlt : tsLtB t1 t2 = true) :
    lexLtB (backupFileName t1) (backupFileName t2) = true := by
  simp only [tsWF, Bool.and_eq_true, decide_eq_true_eq] at hw1 hw2
  obtain ⟨⟨⟨⟨⟨⟨hy1, hmo1⟩, hd1⟩, hh1⟩, hmi1⟩, hs1⟩, hms1⟩ := hw1
  obtain ⟨⟨⟨⟨⟨⟨hy2, hmo2⟩, hd2⟩, hh2⟩, hmi2⟩, hs2⟩, hms2⟩ := hw2
  unfold backupFileName
  rw [sanitize_isoChars, sanitize_isoChars]
  simp only [List.append_assoc, List.cons_append, List.nil_append]
  rw [lexLtB_append_left]
  unfold tsLtB at hlt
  by_cases hy : t1.year ≠ t2.year
  · rw [if_pos hy] at hlt
    exact lexLtB_append_of_lt _ _ _ _ rfl
      (pad4_lt _ _ (of_decide_eq_true hlt) hy2)
  · push_neg at hy
    rw [if_neg (by simp [hy])] at hlt
    rw [hy, lexLtB_append_left, lexLtB_cons_same]
    by_cases hmo : t1.month ≠ t2.month
    · rw [if_pos hmo] at hlt
      exact lexLtB_append_of_lt _ _ _ _ rfl
        (pad2_lt _ _ (of_decide_eq_true hlt) hmo2)
    · push_neg at hmo
      rw [if_neg (by simp [hmo])] at hlt
      rw [hmo, lexLtB_append_left, lexLtB_cons_same]
      by_cases hd : t1.day ≠ t2.day
      · rw [if_pos hd] at hlt
        exact lexLtB_append_of_lt _ _ _ _ rfl
          (pad2_lt _ _ (of_decide_eq_true hlt) hd2)
      · push_neg at hd
        rw [if_neg (by simp [hd])] at hlt
        rw [hd, lexLtB_append_left, lexLtB_cons_same]
        by_cases hh : t1.hour ≠ t2.hour
        · rw [if_pos hh] at hlt
          exact lexLtB_append_of_lt _ _ _ _ rfl
            (pad2_lt _ _ (of_decide_eq_true hlt) hh2)
        · push_neg at hh
          rw [if_neg (by simp [hh])] at hlt
          rw [hh, lexLtB_append_left, lexLtB_cons_same]
          by_cases hmi : t1.minute ≠ t2.minute
          · rw [if_pos hmi] at hlt
            exact lexLtB_append_of_lt _ _ _ _ rfl
              (pad2_lt _ _ (of_decide_eq_true hlt) hmi2)
          · push_neg at hmi
            rw [if_neg (by simp [hmi])] at hlt
            rw [hmi, lexLtB_append_left, lexLtB_cons_same]
            by_cases hs : t1.second ≠ t2.second
            · rw [if_pos hs] at hlt
              exact lexLtB_append_of_lt _ _ _ _ rfl
                (pad2_lt _ _ (of_decide_eq_true hlt) hs2)
            · push_neg at hs
              rw [if_neg (by simp [hs])] at hlt
              rw [hs, lexLtB_append_left, lexLtB_cons_same]
              exact lexLtB_append_of_lt _ _ _ _ rfl
                (pad3_lt _ _ (of_decide_eq_true hlt) hms2)

theorem startsWithB_append_self : ∀ (p rest : List Char),
    startsWithB p (p ++ rest) = true
  | [], _ => rfl
  | c :: cs, rest => by
      simp [startsWithB, startsWithB_append_self cs rest]

theorem endsWithB_append_self (s x : List Char) : endsWithB s (x ++ s) = true := by
  unfold endsWithB
  rw [List.reverse_append]
  exact startsWithB_append_self _ _

/-- Every timestamped backup name passes the `getAvailableBackups`
filter. -/
theorem isBackupFileId_backupFileName (t : TS) :
    isBackupFileId (backupFileName t) = true := by
  unfold isBackupFileId backupFileName
  rw [Bool.and_eq_true]
  constructor
  · exact startsWithB_append_self _ _
  · exact endsWithB_append_self _ _

/-- C8: listing the backups returns the timestamped identifiers newest
first — the identifiers are timestamp-derived so lexicographic order
equals chronological order, and the listing sorts them and reverses: for
creation instants t1 < t2 < t3, whatever order the directory returns the
files in, and whatever other files (e.g. the `latest` and `pre-restore`
slots) sit beside them, the result is [t3, t2, t1]. -/
theorem c8_backup_listing (t1 t2 t3 : TS) (files extra : List (List Char))
    (hw1 : tsWF t1 = true) (hw2 : tsWF t2 = true) (hw3 : tsWF t3 = true)
    (h12 : tsLtB t1 t2 = true) (h23 : tsLtB t2 t3 = true)
    (hextra : ∀ f ∈ extra, isBackupFileId f = false)
    (hfiles : files.Perm
      ([backupFileName t1, backupFileName t2, backupFileName t3] ++ extra)) :
    getAvailableBackups files
      = [backupFileName t3, backupFileName t2, backupFileName t1] := by
  have hb1 := isBackupFileId_backupFileName t1
  have hb2 := isBackupFileId_backupFileName t2
  have hb3 := isBackupFileId_backupFileName t3
  have hfil : (files.filter isBackupFileId).Perm
      [backupFileName t1, backupFileName t2, backupFileName t3] := by
    have hp := hfiles.filter isBackupFileId
    rw [List.filter_append] at hp
    have hex : extra.filter isBackupFileId = [] := by
      rw [List.filter_eq_nil_iff]
      intro a ha
      rw [hextra a ha]
      exact Bool.false_ne_true
    rw [hex, List.append_nil] at hp
    have hkeep : ([backupFileName t1, backupFileName t2,
        backupFileName t3]).filter isBackupFileId
        = [backupFileName t1, backupFileName t2, backupFileName t3] := by
      simp [List.filter_cons, hb1, hb2, hb3]
    rw [hkeep] at hp
    exact hp
  have hle12 : lexLe (backupFileName t1) (backupFileName t2) :=
    lexLtB_le _ _ (backupFileName_lt t1 t2 hw1 hw2 h12)
  have hle23 : lexLe (backupFileName t2) (backupFileName t3) :=
    lexLtB_le _ _ (backupFileName_lt t2 t3 hw2 hw3 h23)
  have hle13 : lexLe (backupFileName t1) (backupFileName t3) :=
    lexLeB_trans _ _ _ hle12 hle23
  have hsorted : List.Sorted lexLe
      [backupFileName t1, backupFileName t2, backupFileName t3] := by
    refine List.sorted_cons.mpr ⟨?_, List.sorted_cons.mpr ⟨?_, List.sorted_singleton _⟩⟩
    · intro b hb
      simp only [List.mem_cons, List.mem_singleton, List.not_mem_nil, or_false] at hb
      rcases hb with rfl | rfl
      · exact hle12
      · exact hle13
    · intro b hb
      simp only [List.mem_cons, List.mem_singleton, List.not_mem_nil, or_false] at hb
      rcases hb with rfl
      exact hle23
  have heq := List.eq_of_perm_of_sorted
    ((List.perm_insertionSort lexLe (files.filter isBackupFileId)).trans hfil)
    (List.sorted_insertionSort lexLe (files.filter isBackupFileId)) hsorted
  unfold getAvailableBackups
  rw [heq]
  rfl

theorem c8_backup_listing_witness :
    getAvailableBackups
        [backupFileName ⟨2024, 1, 2, 3, 4, 5, 7⟩,
         ("config-latest-backup.json").toList,
         backupFileName ⟨2025, 12, 31, 23, 59, 59, 999⟩,
         backupFileName ⟨2024, 1, 2, 3, 4, 5, 6⟩]
      = [backupFileName ⟨2025, 12, 31, 23, 59, 59, 999⟩,
         backupFileName ⟨2024, 1, 2, 3, 4, 5, 7⟩,
         backupFileName ⟨2024, 1, 2, 3, 4, 5, 6⟩] :=
  c8_backup_listing ⟨2024, 1, 2, 3, 4, 5, 6⟩ ⟨2024, 1, 2, 3, 4, 5, 7⟩
    ⟨2025, 12, 31, 23, 59, 59, 999⟩
    [backupFileName ⟨2024, 1, 2, 3, 4, 5, 7⟩,
     ("config-latest-backup.json").toList,
     backupFileName ⟨2025, 12, 31, 23, 59, 59, 999⟩,
     backupFileName ⟨2024, 1, 2, 3, 4, 5, 6⟩]
    [("config-latest-backup.json").toList]
    (by decide) (by decide) (by decide) (by decide) (by decide)
    (by decide) (by decide)
